import Mathlib

/-!
Verification of the go-term session-orchestration backend.

This development shallowly embeds the Go source of the repository
(controllers/ssh_controller.go, services/script_parser.go,
services/enhanced_script_executor.go, services/terminal_session.go,
services/ssh_service.go, models/script.go) into Lean and proves, or
refutes, the specified properties of the script parser, the batch
executors, the interactive terminal session and the connection registry.

Conventions of the embedding:
* Go strings are Lean `String`s; byte slices of terminal chunks are kept
  abstract (a type variable) where their content is irrelevant.
* A Go `(T, error)` return value becomes `T × Option String` (the error
  text), and `error`-only returns become `Option String`.
* Wall-clock timestamps (`time.Now()` formatting) carry no information
  relevant to any verified property and are omitted from the record
  structures; every other field of the Go structs is kept.
* Go interfaces (`CommandExecutor`) become structures of functions; the
  concrete SSH-backed implementations are I/O and stay abstract, exactly
  as the interface abstracts them in the source.
* Concurrency is modelled by explicit interleaving of the atomic
  (mutex-protected) blocks of the source, or sequentially where the
  source serializes the relevant operations with a lock or `sync.Once`.
-/

namespace GoTerm

/- ===================== Go string primitives ===================== -/

/-- Whitespace as used by Go `strings.TrimSpace`/`strings.Fields` on ASCII
input (`unicode.IsSpace` restricted to the ASCII range). -/
def goIsSpace (c : Char) : Bool :=
  c = ' ' || c = '\t' || c = '\n' || c = '\u000b' || c = '\u000c' || c = '\r'

/-- Trim of leading and trailing whitespace on the character list. -/
def trimAscii (l : List Char) : List Char :=
  ((l.dropWhile goIsSpace).reverse.dropWhile goIsSpace).reverse

/-- Go `strings.TrimSpace`. -/
def goTrimSpace (s : String) : String :=
  ⟨trimAscii s.data⟩

/-- Go `strings.HasPrefix` (character-level, so that it evaluates inside
the kernel). -/
def goStartsWith (s pre : String) : Bool :=
  pre.data.isPrefixOf s.data

/-- Go `strings.HasSuffix`. -/
def goEndsWith (s suf : String) : Bool :=
  suf.data.reverse.isPrefixOf s.data.reverse

/-- Drop the last `n` characters (Go slicing `s[:len(s)-n]`). -/
def goDropRight (s : String) (n : Nat) : String :=
  ⟨s.data.take (s.data.length - n)⟩

/-- Drop the first `n` characters (Go slicing `s[n:]`). -/
def goDrop (s : String) (n : Nat) : String :=
  ⟨s.data.drop n⟩

/-- Go `strings.TrimSuffix`: drop `suf` from the end of `s` once, when present. -/
def goStripSuf (s suf : String) : String :=
  if goEndsWith s suf then goDropRight s suf.length else s

/-- Go `strings.TrimPrefix`: drop `pre` from the front of `s` once, when present. -/
def goStripPre (s pre : String) : String :=
  if goStartsWith s pre then goDrop s pre.length else s

/-- Splitting a character list at every character satisfying `p`
(`cur` is the reversed current field). -/
def charSplitAux (p : Char → Bool) : List Char → List Char → List (List Char)
  | [], cur => [cur.reverse]
  | c :: rest, cur =>
    if p c then cur.reverse :: charSplitAux p rest []
    else charSplitAux p rest (c :: cur)

/-- Go `strings.Split s (String.singleton sep)`. -/
def goSplitOnChar (s : String) (sep : Char) : List String :=
  (charSplitAux (fun c => c = sep) s.data []).map (fun l => ⟨l⟩)

/-- Go `strings.Fields`: split around runs of whitespace, no empty fields. -/
def goFields (s : String) : List String :=
  ((charSplitAux goIsSpace s.data []).map (fun l => (⟨l⟩ : String))).filter (fun f => f ≠ "")

/-- Occurrence of `pat` as a contiguous sublist. -/
def listContainsSub (pat : List Char) : List Char → Bool
  | [] => pat.isPrefixOf []
  | c :: rest => pat.isPrefixOf (c :: rest) || listContainsSub pat rest

/-- Go `strings.Contains`. -/
def goContainsSub (s sub : String) : Bool :=
  listContainsSub sub.data s.data

/-- The part of `s` after the last occurrence of the character `sep` (the
whole of `s` when `sep` does not occur); Go `strings.LastIndex` slicing. -/
def goAfterLast (s : String) (sep : Char) : String :=
  (goSplitOnChar s sep).getLastD s

/-- Joining with a separator (Go `strings.Join`). -/
def goJoinWith (sep : String) : List String → String
  | [] => ""
  | [x] => x
  | x :: y :: rest => x ++ sep ++ goJoinWith sep (y :: rest)

/-- Go `strings.SplitN s sep 3` for a one-character separator. -/
def goSplitN3 (s : String) (sep : Char) : List String :=
  let parts := goSplitOnChar s sep
  if parts.length ≤ 3 then parts
  else parts.take 2 ++ [goJoinWith (String.singleton sep) (parts.drop 2)]

/-- Concatenation of a list of strings (used to reason about the
incremental `strings.Builder` of the parser). -/
def strConcat : List String → String
  | [] => ""
  | s :: rest => s ++ strConcat rest

/-- Line splitting as performed by `bufio.Scanner` with `ScanLines`:
split at `\n`, strip one trailing `\r` from each line, and do not emit a
final empty token when the input ends with a newline. -/
def goLines (s : String) : List String :=
  let parts := (goSplitOnChar s '\n').map
    (fun l => if goEndsWith l "\r" then goDropRight l 1 else l)
  if parts.getLast? = some "" then parts.dropLast else parts

/- ===================== ScriptParser.ParseCommands =====================
   services/script_parser.go -/

/-- The scanner loop of `ScriptParser.ParseCommands`: `cur` is the
contents of the `strings.Builder` `currentCommand`, `acc` the commands
emitted so far.  Each raw line is trimmed; blank lines and lines starting
with `#` or `//` are skipped; a line ending in a backslash has the
backslash replaced by a space and is accumulated; otherwise the
accumulated text plus the line is trimmed and emitted when nonempty
(when empty the builder keeps its contents, as in the source). -/
def parseLines : List String → String → List String → List String
  | [], cur, acc =>
    if cur.length > 0 then
      let command := goTrimSpace cur
      if command ≠ "" then acc ++ [command] else acc
    else acc
  | l :: rest, cur, acc =>
    let line := goTrimSpace l
    if line = "" then parseLines rest cur acc
    else if goStartsWith line "#" || goStartsWith line "//" then parseLines rest cur acc
    else if goEndsWith line "\\" then parseLines rest (cur ++ goStripSuf line "\\" ++ " ") acc
    else
      let command := goTrimSpace (cur ++ line)
      if command ≠ "" then parseLines rest "" (acc ++ [command])
      else parseLines rest (cur ++ line) acc

/-- `ScriptParser.ParseCommands` (services/script_parser.go): script text
to the ordered list of logical commands. -/
def parseCommands (scriptContent : String) : List String :=
  if scriptContent = "" then [] else parseLines (goLines scriptContent) "" []

/- ============ Specification-side restatement of the parser ============
   (follows the words of the spec, for the refinement claim C8) -/

/-- Spec wording: a line starting with a comment marker (`#` or `//`). -/
def isCommentLine (l : String) : Bool :=
  goStartsWith l "#" || goStartsWith l "//"

/-- Spec wording: the trimmed lines that are kept (not blank, not comments). -/
def specKeep (l : String) : Bool :=
  !(l = "" || isCommentLine l)

/-- Spec wording: a line carrying the line-continuation marker. -/
def contLine (l : String) : Bool :=
  goEndsWith l "\\"

/-- Rendering of one line inside a joined logical command: a continuation
line contributes its text with the trailing backslash replaced by a
space, a final line contributes itself. -/
def contRender (l : String) : String :=
  if goEndsWith l "\\" then goStripSuf l "\\" ++ " " else l

/-- Modelled from the spec: group the kept lines into chunks, one chunk
per logical command; a chunk extends while lines end in the continuation
marker.  `pending` holds the (reversed) continuation lines of the open
chunk. -/
def specChunks : List String → List String → List (List String)
  | [], pending => if pending = [] then [] else [pending.reverse]
  | l :: rest, pending =>
    if contLine l then specChunks rest (l :: pending)
    else (pending.reverse ++ [l]) :: specChunks rest []

/-- Join one chunk of lines into a logical command. -/
def joinChunk (chunk : List String) : String :=
  goTrimSpace (strConcat (chunk.map contRender))

/-- Modelled from the spec (C8 wording): trim every line, skip blank and
comment lines, join continuation groups into logical commands, and return
the nonempty commands in original order. -/
def parseCommandsSpec (s : String) : List String :=
  let cleanLines := ((goLines s).map goTrimSpace).filter specKeep
  ((specChunks cleanLines []).map joinChunk).filter (fun c => c ≠ "")

/- ============ Parser refinement: helper lemmas ============ -/

/-- The clean-line phase of the scanner loop: the same recursion as
`parseLines`, on lines that are already trimmed and kept. -/
def parseCleanLines : List String → String → List String → List String
  | [], cur, acc =>
    if cur.length > 0 then
      let command := goTrimSpace cur
      if command ≠ "" then acc ++ [command] else acc
    else acc
  | l :: rest, cur, acc =>
    if goEndsWith l "\\" then parseCleanLines rest (cur ++ goStripSuf l "\\" ++ " ") acc
    else
      let command := goTrimSpace (cur ++ l)
      if command ≠ "" then parseCleanLines rest "" (acc ++ [command])
      else parseCleanLines rest (cur ++ l) acc

theorem dropWhile_head_false {α : Type} {p : α → Bool} :
    ∀ (l : List α) (a : α) (as : List α), l.dropWhile p = a :: as → p a = false := by
  intro l
  induction l with
  | nil => intro a as h; simp at h
  | cons x xs ih =>
    intro a as h
    rw [List.dropWhile_cons] at h
    by_cases hx : p x
    · rw [if_pos hx] at h
      exact ih a as h
    · rw [if_neg hx] at h
      cases h
      exact Bool.eq_false_iff.mpr hx

theorem dropWhile_idem {α : Type} {p : α → Bool} (l : List α) :
    (l.dropWhile p).dropWhile p = l.dropWhile p := by
  cases h : l.dropWhile p with
  | nil => rfl
  | cons a as =>
    apply List.dropWhile_cons_of_neg
    rw [dropWhile_head_false l a as h]
    simp

theorem trimAscii_ne_nil {l : List Char} (h : ∃ x ∈ l, ¬ goIsSpace x) :
    trimAscii l ≠ [] := by
  obtain ⟨x, hxl, hx⟩ := h
  intro hcontra
  unfold trimAscii at hcontra
  rw [List.reverse_eq_nil_iff, List.dropWhile_eq_nil_iff] at hcontra
  have hxd : x ∈ l.dropWhile goIsSpace := by
    have hsplit := List.takeWhile_append_dropWhile goIsSpace l
    rw [← hsplit] at hxl
    rcases List.mem_append.mp hxl with htake | hdrop
    · exact absurd (List.mem_takeWhile_imp htake) hx
    · exact hdrop
  exact hx (hcontra x (List.mem_reverse.mpr hxd))

theorem exists_nonspace_of_trim_fixed {l : List Char} (h : trimAscii l = l)
    (hne : l ≠ []) : ∃ x ∈ l, ¬ goIsSpace x := by
  by_contra hall
  push_neg at hall
  have hdrop : l.dropWhile goIsSpace = [] := List.dropWhile_eq_nil_iff.mpr hall
  rw [trimAscii, hdrop] at h
  simp at h
  exact hne h

/-- Removal of trailing whitespace, the second phase of `trimAscii`. -/
def rstripSpace (m : List Char) : List Char :=
  (m.reverse.dropWhile goIsSpace).reverse

theorem trimAscii_eq_rstrip (l : List Char) :
    trimAscii l = rstripSpace (l.dropWhile goIsSpace) := rfl

theorem rstrip_idem (m : List Char) : rstripSpace (rstripSpace m) = rstripSpace m := by
  unfold rstripSpace
  rw [List.reverse_reverse, dropWhile_idem]

theorem dropWhile_head_stable {m : List Char} (h : m.dropWhile goIsSpace = m) :
    (rstripSpace m).dropWhile goIsSpace = rstripSpace m := by
  cases hr : rstripSpace m with
  | nil => rfl
  | cons b bs =>
    have hsplit := List.takeWhile_append_dropWhile goIsSpace m.reverse
    have hm : m = rstripSpace m ++ (m.reverse.takeWhile goIsSpace).reverse := by
      show m = (m.reverse.dropWhile goIsSpace).reverse ++ (m.reverse.takeWhile goIsSpace).reverse
      have h2 := congrArg List.reverse hsplit
      rw [List.reverse_append, List.reverse_reverse] at h2
      exact h2.symm
    have hme : m = b :: (bs ++ (m.reverse.takeWhile goIsSpace).reverse) := by
      rw [hr] at hm
      simpa using hm
    have hbfalse : goIsSpace b = false :=
      dropWhile_head_false m b _ (h.trans hme)
    exact List.dropWhile_cons_of_neg (by simp [hbfalse])

theorem trimAscii_idem (l : List Char) : trimAscii (trimAscii l) = trimAscii l := by
  rw [trimAscii_eq_rstrip, trimAscii_eq_rstrip, dropWhile_head_stable (dropWhile_idem l)]
  exact rstrip_idem _

theorem goTrimSpace_idem (s : String) : goTrimSpace (goTrimSpace s) = goTrimSpace s := by
  unfold goTrimSpace
  exact String.ext (by simpa using trimAscii_idem s.data)

theorem string_ne_empty_iff_data {s : String} : s ≠ "" ↔ s.data ≠ [] := by
  constructor
  · intro h hd
    exact h (String.ext hd)
  · intro h he
    exact h (by rw [he])

theorem goTrimSpace_append_ne {l : String} (hfix : goTrimSpace l = l) (hne : l ≠ "")
    (c : String) : goTrimSpace (c ++ l) ≠ "" := by
  have hfix' : trimAscii l.data = l.data := by
    have := congrArg String.data hfix
    simpa [goTrimSpace] using this
  have hnel : l.data ≠ [] := string_ne_empty_iff_data.mp hne
  obtain ⟨x, hxl, hx⟩ := exists_nonspace_of_trim_fixed hfix' hnel
  rw [string_ne_empty_iff_data]
  show trimAscii (c ++ l).data ≠ []
  apply trimAscii_ne_nil
  exact ⟨x, by rw [String.data_append]; exact List.mem_append.mpr (Or.inr hxl), hx⟩

theorem strConcat_append (a b : List String) :
    strConcat (a ++ b) = strConcat a ++ strConcat b := by
  induction a with
  | nil =>
    show strConcat b = "" ++ strConcat b
    apply String.ext
    simp
  | cons x xs ih =>
    show x ++ strConcat (xs ++ b) = (x ++ strConcat xs) ++ strConcat b
    rw [ih, String.append_assoc]

theorem strConcat_eq_empty_iff (xs : List String) :
    strConcat xs = "" ↔ ∀ x ∈ xs, x = "" := by
  induction xs with
  | nil => simp [strConcat]
  | cons y ys ih =>
    show y ++ strConcat ys = "" ↔ _
    constructor
    · intro h
      have hd : y.data ++ (strConcat ys).data = [] := by
        have := congrArg String.data h
        simpa using this
      obtain ⟨h1, h2⟩ := List.append_eq_nil.mp hd
      intro x hx
      rcases List.mem_cons.mp hx with rfl | hmem
      · exact String.ext h1
      · exact ih.mp (String.ext h2) x hmem
    · intro h
      have hy : y = "" := h y (List.mem_cons_self y ys)
      have hys : strConcat ys = "" := ih.mpr (fun x hx => h x (List.mem_cons_of_mem y hx))
      rw [hy, hys]
      rfl

theorem contRender_ne_empty {l : String} (h : goEndsWith l "\\") : contRender l ≠ "" := by
  rw [contRender, if_pos h, string_ne_empty_iff_data]
  rw [String.data_append]
  simp

theorem parseLines_nil (cur : String) (acc : List String) :
    parseLines [] cur acc
      = (if cur.length > 0 then
          if goTrimSpace cur ≠ "" then acc ++ [goTrimSpace cur] else acc
        else acc) := rfl

theorem parseLines_cons (l : String) (rest : List String) (cur : String) (acc : List String) :
    parseLines (l :: rest) cur acc
      = (if goTrimSpace l = "" then parseLines rest cur acc
        else if goStartsWith (goTrimSpace l) "#" || goStartsWith (goTrimSpace l) "//" then
          parseLines rest cur acc
        else if goEndsWith (goTrimSpace l) "\\" then
          parseLines rest (cur ++ goStripSuf (goTrimSpace l) "\\" ++ " ") acc
        else if goTrimSpace (cur ++ goTrimSpace l) ≠ "" then
          parseLines rest "" (acc ++ [goTrimSpace (cur ++ goTrimSpace l)])
        else parseLines rest (cur ++ goTrimSpace l) acc) := rfl

theorem parseCleanLines_nil (cur : String) (acc : List String) :
    parseCleanLines [] cur acc
      = (if cur.length > 0 then
          if goTrimSpace cur ≠ "" then acc ++ [goTrimSpace cur] else acc
        else acc) := rfl

theorem parseCleanLines_cons (l : String) (rest : List String) (cur : String)
    (acc : List String) :
    parseCleanLines (l :: rest) cur acc
      = (if goEndsWith l "\\" then parseCleanLines rest (cur ++ goStripSuf l "\\" ++ " ") acc
        else if goTrimSpace (cur ++ l) ≠ "" then
          parseCleanLines rest "" (acc ++ [goTrimSpace (cur ++ l)])
        else parseCleanLines rest (cur ++ l) acc) := rfl

theorem specChunks_nil (pending : List String) :
    specChunks [] pending = (if pending = [] then [] else [pending.reverse]) := rfl

theorem specChunks_cons (l : String) (rest : List String) (pending : List String) :
    specChunks (l :: rest) pending
      = (if contLine l then specChunks rest (l :: pending)
        else (pending.reverse ++ [l]) :: specChunks rest []) := rfl

/-- Step A: skipping blank/comment lines and trimming commutes with the
scanner loop. -/
theorem parseLines_eq_clean :
    ∀ (ls : List String) (cur : String) (acc : List String),
      parseLines ls cur acc = parseCleanLines ((ls.map goTrimSpace).filter specKeep) cur acc := by
  intro ls
  induction ls with
  | nil => intro cur acc; rfl
  | cons l rest ih =>
    intro cur acc
    rw [parseLines_cons]
    simp only [List.map_cons, List.filter_cons]
    by_cases hblank : goTrimSpace l = ""
    · rw [if_pos hblank]
      have hk : specKeep (goTrimSpace l) = false := by
        simp [specKeep, hblank]
      rw [hk, if_neg (by simp)]
      exact ih cur acc
    · rw [if_neg hblank]
      by_cases hcomment : (goStartsWith (goTrimSpace l) "#" || goStartsWith (goTrimSpace l) "//") = true
      · rw [if_pos hcomment]
        have hk : specKeep (goTrimSpace l) = false := by
          simp [specKeep, isCommentLine, hcomment]
        rw [hk, if_neg (by simp)]
        exact ih cur acc
      · rw [if_neg hcomment]
        have hk : specKeep (goTrimSpace l) = true := by
          simp [specKeep, isCommentLine, hblank, hcomment]
        rw [hk, if_pos rfl]
        rw [parseCleanLines_cons]
        by_cases hcont : goEndsWith (goTrimSpace l) "\\"
        · rw [if_pos hcont, if_pos hcont]
          exact ih _ acc
        · rw [if_neg hcont, if_neg hcont]
          by_cases hcmd : goTrimSpace (cur ++ goTrimSpace l) ≠ ""
          · rw [if_pos hcmd, if_pos hcmd]
            exact ih "" _
          · rw [if_neg hcmd, if_neg hcmd]
            exact ih _ acc

/-- Step B: the clean-line scanner loop computes the chunked/joined
commands of the specification. -/
theorem parseCleanLines_spec :
    ∀ (ls : List String) (pending : List String) (cur : String) (acc : List String),
      (∀ l ∈ ls, goTrimSpace l = l ∧ l ≠ "") →
      (∀ l ∈ pending, goEndsWith l "\\") →
      cur = strConcat (pending.reverse.map contRender) →
      parseCleanLines ls cur acc
        = acc ++ ((specChunks ls pending).map joinChunk).filter (fun c => c ≠ "") := by
  intro ls
  induction ls with
  | nil =>
    intro pending cur acc _ hpend hcur
    rw [parseCleanLines_nil, specChunks_nil]
    cases hp : pending with
    | nil =>
      have hcur0 : cur = "" := by rw [hcur, hp]; rfl
      rw [if_pos rfl, hcur0]
      simp
    | cons p ps =>
      have hcur_ne : cur ≠ "" := by
        rw [hcur]
        intro hc
        have hall := (strConcat_eq_empty_iff _).mp hc
        have hpmem : contRender p ∈ (pending.reverse.map contRender) := by
          rw [hp]
          simp
        exact contRender_ne_empty (hpend p (by rw [hp]; exact List.mem_cons_self p ps)) (hall _ hpmem)
      have hlen : cur.length > 0 := by
        have h1 : cur.data ≠ [] := string_ne_empty_iff_data.mp hcur_ne
        have h2 : cur.data.length > 0 := List.length_pos.mpr h1
        exact h2
      rw [if_pos hlen]
      rw [if_neg (show ¬(p :: ps = ([] : List String)) by simp)]
      have hjoin : joinChunk (p :: ps).reverse = goTrimSpace cur := by
        rw [← hp, joinChunk, hcur]
      rw [List.map_cons, List.map_nil, hjoin, List.filter_cons]
      by_cases hne : goTrimSpace cur ≠ ""
      · rw [if_pos hne, if_pos (decide_eq_true hne)]
        rfl
      · rw [if_neg hne]
        simp only [ne_eq, not_not] at hne
        simp [hne]
  | cons l rest ih =>
    intro pending cur acc hls hpend hcur
    obtain ⟨hfix, hne⟩ := hls l (List.mem_cons_self l rest)
    have hls' : ∀ x ∈ rest, goTrimSpace x = x ∧ x ≠ "" :=
      fun x hx => hls x (List.mem_cons_of_mem l hx)
    rw [parseCleanLines_cons, specChunks_cons]
    by_cases hcont : goEndsWith l "\\"
    · have hc2 : contLine l = true := by simp [contLine, hcont]
      rw [if_pos hcont, if_pos hc2]
      apply ih (l :: pending) _ acc hls'
      · intro x hx
        rcases List.mem_cons.mp hx with rfl | hmem
        · exact hcont
        · exact hpend x hmem
      · rw [List.reverse_cons, List.map_append, strConcat_append, ← hcur]
        show cur ++ goStripSuf l "\\" ++ " " = cur ++ strConcat [contRender l]
        rw [contRender, if_pos hcont]
        show cur ++ goStripSuf l "\\" ++ " "
            = cur ++ ((goStripSuf l "\\" ++ " ") ++ "")
        rw [String.append_assoc, String.append_assoc]
        rfl
    · have hc2 : ¬ (contLine l = true) := by simp [contLine, hcont]
      rw [if_neg hcont]
      have hcmd : goTrimSpace (cur ++ l) ≠ "" := goTrimSpace_append_ne hfix hne cur
      rw [if_pos hcmd, if_neg hc2]
      have hjoin : joinChunk (pending.reverse ++ [l]) = goTrimSpace (cur ++ l) := by
        rw [joinChunk, List.map_append, strConcat_append, ← hcur]
        have hrl : contRender l = l := by rw [contRender, if_neg hcont]
        show goTrimSpace (cur ++ (contRender l ++ "")) = _
        rw [hrl, String.append_empty]
      rw [List.map_cons, hjoin, List.filter_cons]
      rw [if_pos (decide_eq_true hcmd)]
      rw [ih [] "" (acc ++ [goTrimSpace (cur ++ l)]) hls' (by intro x hx; simp at hx) rfl]
      rw [List.append_assoc]
      rfl

/-- Claim C8: `ParseCommands` is a pure function returning the logical
commands in original order: each input line is trimmed, blank lines and
lines starting with a comment marker (`#` or `//`) are skipped, a line
ending in a backslash is joined with the following kept line(s) into one
logical command, and no returned command string is empty.  Stated as a
refinement: the source parser coincides with `parseCommandsSpec`, the
function written from the spec's words, and all returned commands are
nonempty. -/
theorem parseCommands_refines_spec (s : String) :
    parseCommands s = parseCommandsSpec s ∧ ∀ c ∈ parseCommands s, c ≠ "" := by
  have heq : parseCommands s = parseCommandsSpec s := by
    by_cases hs : s = ""
    · subst hs
      rfl
    · rw [parseCommands, if_neg hs]
      rw [parseLines_eq_clean]
      rw [parseCleanLines_spec (((goLines s).map goTrimSpace).filter specKeep) [] "" []]
      · rfl
      · intro l hl
        constructor
        · have hl' := List.mem_of_mem_filter hl
          obtain ⟨r, _, rfl⟩ := List.mem_map.mp hl'
          exact goTrimSpace_idem r
        · have hk := List.of_mem_filter hl
          intro hc
          rw [hc] at hk
          simp [specKeep] at hk
      · intro x hx
        simp at hx
      · rfl
  refine ⟨heq, ?_⟩
  rw [heq]
  intro c hc
  simp only [parseCommandsSpec] at hc
  exact of_decide_eq_true (List.mem_filter.mp hc).2

/-- Witness for C8 at a concrete script. -/
theorem parseCommands_refines_spec_witness :
    parseCommands "ls -la\n# note\ncd /tmp \\\n&& ls\n\n" = parseCommandsSpec "ls -la\n# note\ncd /tmp \\\n&& ls\n\n"
      ∧ ∀ c ∈ parseCommands "ls -la\n# note\ncd /tmp \\\n&& ls\n\n", c ≠ "" :=
  parseCommands_refines_spec "ls -la\n# note\ncd /tmp \\\n&& ls\n\n"

/- ===================== TerminalSession =====================
   services/terminal_session.go -/

/-- Go `strings.Contains(c, "\t")` (single-character needle). -/
def goContainsChar (s : String) (c : Char) : Bool :=
  s.data.contains c

/-- `TerminalSession.SendCommand` (services/terminal_session.go
lines 321-335): the exact bytes written to the stdin pipe.  A lone Tab is
written as-is; a command containing a Tab is written as-is; any other
command gets a trailing newline. -/
def sendCommand (c : String) : String :=
  if c = "\t" then c
  else if goContainsChar c '\t' then c
  else c ++ "\n"

/-- `TerminalSession.SendCommandWithoutNewline`: the exact bytes written. -/
def sendCommandWithoutNewline (c : String) : String :=
  c

/-- The queue push of `TerminalSession.readLoop` (services/
terminal_session.go lines 94-111) on a bounded channel of capacity `cap`,
modelled as a list holding the queued chunks oldest-first. The
non-blocking send succeeds when the queue is not full; otherwise one
oldest chunk is received (dropped) and the new chunk is sent; when
nothing can be dropped (an empty full queue, i.e. capacity zero) the new
chunk is discarded, mirroring the final `default:` branch. -/
def pushChunk {α : Type} (cap : Nat) (q : List α) (d : α) : List α :=
  if q.length < cap then q ++ [d]
  else
    match q with
    | [] => q
    | _ :: rest => rest ++ [d]

/-- Iterated pushes of one pump task between drains. -/
def pushAll {α : Type} (cap : Nat) (q : List α) (ds : List α) : List α :=
  ds.foldl (pushChunk cap) q

theorem pushAll_nil {α : Type} (cap : Nat) (q : List α) : pushAll cap q [] = q := rfl

theorem pushAll_cons {α : Type} (cap : Nat) (q : List α) (d : α) (ds : List α) :
    pushAll cap q (d :: ds) = pushAll cap (pushChunk cap q d) ds := rfl

theorem pushAll_eq_drop {α : Type} :
    ∀ (ds q : List α) (cap : Nat), 1 ≤ cap → q.length ≤ cap →
      pushAll cap q ds = (q ++ ds).drop (q.length + ds.length - cap) := by
  intro ds
  induction ds with
  | nil =>
    intro q cap hcap hq
    rw [pushAll_nil]
    have h0 : q.length + List.length ([] : List α) - cap = 0 := by
      simp only [List.length_nil, Nat.add_zero]
      omega
    rw [h0]
    simp
  | cons d ds ih =>
    intro q cap hcap hq
    rw [pushAll_cons]
    by_cases hlt : q.length < cap
    · have hpc : pushChunk cap q d = q ++ [d] := by
        unfold pushChunk
        rw [if_pos hlt]
      rw [hpc, ih (q ++ [d]) cap hcap (by simp; omega)]
      rw [List.append_assoc]
      have harith : (q ++ [d]).length + ds.length - cap
          = q.length + (d :: ds).length - cap := by
        simp
        omega
      rw [harith]
      rfl
    · have heq : q.length = cap := by omega
      cases q with
      | nil => simp at heq; omega
      | cons x rest =>
        have hpc : pushChunk cap (x :: rest) d = rest ++ [d] := by
          unfold pushChunk
          rw [if_neg hlt]
        rw [hpc, ih (rest ++ [d]) cap hcap (by simp at heq ⊢; omega)]
        have harith1 : (rest ++ [d]).length + ds.length - cap = ds.length := by
          simp at heq ⊢
          omega
        have harith2 : (x :: rest).length + (d :: ds).length - cap = ds.length + 1 := by
          simp at heq ⊢
          omega
        rw [harith1, harith2]
        show ((rest ++ [d]) ++ ds).drop ds.length = ((x :: (rest ++ d :: ds))).drop (ds.length + 1)
        rw [List.drop_succ_cons, List.append_assoc]
        rfl

/-- Claim C4: a pump-task push never blocks (the model is a total
function); pushing onto a queue within capacity keeps exactly the most
recent `cap` chunks: the result is the suffix of the pushed stream, so
one oldest chunk is dropped per overflowing push, the newest chunk is
always retained, the queue never exceeds its capacity, and relative
order within the stream is preserved (the retained chunks form a suffix,
hence a sublist, of the stream). -/
theorem readLoop_drop_policy {α : Type} (cap : Nat) (q ds : List α)
    (hcap : 1 ≤ cap) (hq : q.length ≤ cap) :
    pushAll cap q ds = (q ++ ds).drop (q.length + ds.length - cap)
    ∧ (pushAll cap q ds).length ≤ cap
    ∧ pushAll cap ([] : List α) ds = ds.drop (ds.length - cap)
    ∧ (ds ≠ [] → (pushAll cap ([] : List α) ds).getLast? = ds.getLast?)
    ∧ pushAll cap ([] : List α) ds <:+ ds := by
  have hmain := pushAll_eq_drop ds q cap hcap hq
  have hnil := pushAll_eq_drop ds [] cap hcap (by simp)
  simp only [List.nil_append, List.length_nil, Nat.zero_add] at hnil
  refine ⟨hmain, ?_, hnil, ?_, ?_⟩
  · rw [hmain]
    rw [List.length_drop]
    simp
    omega
  · intro hne
    rw [hnil]
    have hk : ds.length - cap < ds.length := by
      have : 0 < ds.length := List.length_pos.mpr hne
      omega
    have hsplit : ds.take (ds.length - cap) ++ ds.drop (ds.length - cap) = ds :=
      List.take_append_drop _ ds
    have hdne : ds.drop (ds.length - cap) ≠ [] := by
      intro hd
      have := congrArg List.length hd
      rw [List.length_drop] at this
      simp at this
      omega
    calc (ds.drop (ds.length - cap)).getLast?
        = (ds.take (ds.length - cap) ++ ds.drop (ds.length - cap)).getLast? := by
          rw [List.getLast?_append_of_ne_nil _ hdne]
      _ = ds.getLast? := by rw [hsplit]
  · rw [hnil]
    exact ⟨ds.take (ds.length - cap), List.take_append_drop _ ds⟩

/-- Witness for C4: capacity 2, pushing four chunks keeps the last two. -/
theorem readLoop_drop_policy_witness :
    (1 ≤ 2 ∧ List.length [0] ≤ 2)
    ∧ (pushAll 2 [0] [1, 2, 3] = ([0] ++ [1, 2, 3]).drop (1 + 3 - 2)
      ∧ (pushAll 2 [0] [1, 2, 3]).length ≤ 2
      ∧ pushAll 2 ([] : List Nat) [1, 2, 3] = [1, 2, 3].drop (3 - 2)
      ∧ ([1, 2, 3] ≠ [] → (pushAll 2 ([] : List Nat) [1, 2, 3]).getLast? = [1, 2, 3].getLast?)
      ∧ pushAll 2 ([] : List Nat) [1, 2, 3] <:+ [1, 2, 3]) :=
  ⟨⟨by decide, by decide⟩, readLoop_drop_policy 2 [0] [1, 2, 3] (by decide) (by decide)⟩

/- ========== TerminalSession.Close (idempotence, sync.Once) ========== -/

/-- State of one `TerminalSession` with respect to closing:
whether the `sync.Once` has fired and how many times the underlying
close sequence (close the `closeChan`, close stdin and the SSH session
with a timeout) has been performed. -/
structure TerminalCloseState where
  onceDone : Bool
  underlyingCloses : Nat
deriving DecidableEq, Repr

/-- One call of `TerminalSession.Close` (services/terminal_session.go
lines 366-413).  `closeOutcome` is the error computed by the underlying
close sequence (stdin/session close failure or the 1s timeout), an
abstract oracle.  The local `err` variable starts as `nil` and is only
assigned inside `closeOnce.Do`, so a call that does not win the
`sync.Once` returns `nil`. -/
def terminalClose (closeOutcome : Option String) (s : TerminalCloseState) :
    Option String × TerminalCloseState :=
  if s.onceDone then (none, s)
  else (closeOutcome, ⟨true, s.underlyingCloses + 1⟩)

/-- `n` consecutive calls of `Close` (concurrent callers are serialized
by `sync.Once.Do`), returning the list of the calls' results. -/
def terminalCloseCalls (closeOutcome : Option String) :
    Nat → TerminalCloseState → List (Option String) × TerminalCloseState
  | 0, s => ([], s)
  | n + 1, s =>
    let r := terminalClose closeOutcome s
    let rs := terminalCloseCalls closeOutcome n r.2
    (r.1 :: rs.1, rs.2)

theorem terminalCloseCalls_done (closeOutcome : Option String) :
    ∀ (n : Nat) (s : TerminalCloseState), s.onceDone = true →
      terminalCloseCalls closeOutcome n s = (List.replicate n none, s) := by
  intro n
  induction n with
  | zero => intro s _; rfl
  | succ m ih =>
    intro s hs
    show (_, _) = _
    rw [terminalClose, if_pos hs]
    rw [ih s hs]
    rfl

/-- Counterexample to C5 as stated: when the underlying close fails, the
first `Close` call returns the error while the second returns `nil` —
the N calls do not all return the same outcome. -/
theorem terminalClose_outcomes_differ :
    (terminalCloseCalls (some "close stdin failed") 2 ⟨false, 0⟩).1
      = [some "close stdin failed", none]
    ∧ (some "close stdin failed" : Option String) ≠ none := by
  constructor
  · rfl
  · intro h
    cases h

/-- Claim C5 (amended): `Close` invoked `N ≥ 1` times performs the
underlying close sequence exactly once (the `sync.Once` guard), the
first call returns the close outcome, and every later call returns
`nil`; hence all calls agree only when the first close succeeds. -/
theorem terminalClose_once_amended (closeOutcome : Option String) (n : Nat)
    (hn : 1 ≤ n) :
    (terminalCloseCalls closeOutcome n ⟨false, 0⟩).1
      = closeOutcome :: List.replicate (n - 1) none
    ∧ (terminalCloseCalls closeOutcome n ⟨false, 0⟩).2.underlyingCloses = 1
    ∧ (closeOutcome = none →
        ∀ r ∈ (terminalCloseCalls closeOutcome n ⟨false, 0⟩).1, r = none) := by
  cases n with
  | zero => omega
  | succ m =>
    have hfirst : terminalClose closeOutcome ⟨false, 0⟩ = (closeOutcome, ⟨true, 1⟩) := by
      rw [terminalClose, if_neg (by simp)]
    have hrest := terminalCloseCalls_done closeOutcome m ⟨true, 1⟩ rfl
    have hcalls : terminalCloseCalls closeOutcome (m + 1) ⟨false, 0⟩
        = (closeOutcome :: List.replicate m none, ⟨true, 1⟩) := by
      show (_, _) = _
      rw [hfirst, hrest]
    refine ⟨by rw [hcalls]; simp, by rw [hcalls], ?_⟩
    intro hnone r hr
    rw [hcalls, hnone] at hr
    simp at hr
    rcases hr with h | h
    · exact h
    · exact h.2

/-- Witness for C5 (amended) at two calls with a successful close. -/
theorem terminalClose_once_amended_witness :
    (terminalCloseCalls none 2 ⟨false, 0⟩).1 = none :: List.replicate 1 none
    ∧ (terminalCloseCalls none 2 ⟨false, 0⟩).2.underlyingCloses = 1
    ∧ ((none : Option String) = none →
        ∀ r ∈ (terminalCloseCalls none 2 ⟨false, 0⟩).1, r = none) :=
  terminalClose_once_amended none 2 (by decide)

/- ========== SendCommand newline policy (C9) ========== -/

/-- Counterexample to C9 as stated: a command merely containing a Tab
(here between other characters) is written without a trailing newline,
although it is not the Tab character and not sent through the
no-newline entry point. -/
theorem sendCommand_tab_inside_no_newline :
    sendCommand "ab\tc" = "ab\tc"
    ∧ ("ab\tc" : String) ≠ "\t"
    ∧ sendCommand "ab\tc" ≠ "ab\tc" ++ "\n" := by
  refine ⟨rfl, by decide, by decide⟩

/-- Claim C9 (amended): `SendCommand` appends a trailing newline unless
the text contains a Tab character anywhere (which covers the lone-Tab
case), in which case the exact bytes are written; the no-newline entry
point always writes the exact bytes. -/
theorem sendCommand_newline_policy (c : String) :
    (goContainsChar c '\t' = false → sendCommand c = c ++ "\n")
    ∧ (goContainsChar c '\t' = true → sendCommand c = c)
    ∧ sendCommandWithoutNewline c = c := by
  refine ⟨?_, ?_, rfl⟩
  · intro h
    rw [sendCommand, if_neg ?_, if_neg (by simp [h])]
    intro hx
    rw [hx] at h
    exact absurd h (by decide)
  · intro h
    rw [sendCommand]
    by_cases hx : c = "\t"
    · rw [if_pos hx]
    · rw [if_neg hx, if_pos h]

/-- Witness for C9 (amended) on a plain command and a Tab command. -/
theorem sendCommand_newline_policy_witness :
    (goContainsChar "ls" '\t' = false → sendCommand "ls" = "ls" ++ "\n")
    ∧ (goContainsChar "ls" '\t' = true → sendCommand "ls" = "ls")
    ∧ sendCommandWithoutNewline "ls" = "ls" :=
  sendCommand_newline_policy "ls"

/- ========== Double-checked publication race (C1) ==========
   controllers/ssh_controller.go: ConnectToServer (lines 267-278),
   CreateTerminalSessionWithSize (lines 549-559), CreateSFTPClient
   (lines 596-605) all end in the same mutex-protected commit: re-check
   the per-host map entry; when an entry is already present, close the
   resource created by the losing caller; otherwise publish it. -/

/-- Registry state for one host during a two-caller creation race, after
both callers have created their resource (both passed the initial
absence check): which caller's resource is published in the map, and
which resources have been closed. -/
structure ConnRaceState where
  published : Option (Fin 2)
  closed : Fin 2 → Bool

/-- Initial race state: nothing published, both created resources open. -/
def raceInit : ConnRaceState := ⟨none, fun _ => false⟩

/-- The mutex-protected double-check commit of caller `t`: if some
resource is already published, caller `t` closes its own freshly
created resource and keeps the existing entry; otherwise it publishes
its resource. -/
def publishCommit (s : ConnRaceState) (t : Fin 2) : ConnRaceState :=
  match s.published with
  | some _ => { s with closed := fun j => if j = t then true else s.closed j }
  | none => { s with published := some t }

/-- A resource is live when it has been created and not closed. -/
def isLive (s : ConnRaceState) (t : Fin 2) : Bool :=
  !(s.closed t)

/-- Claim C1: whatever the order in which the two racing callers reach
the double-checked commit, afterwards the first committer's resource is
published and live, the loser's resource is closed, and exactly one
live resource exists — never zero and never two. -/
theorem race_exactly_one_live (t₁ t₂ : Fin 2) (hne : t₁ ≠ t₂) :
    (publishCommit (publishCommit raceInit t₁) t₂).published = some t₁
    ∧ isLive (publishCommit (publishCommit raceInit t₁) t₂) t₁ = true
    ∧ isLive (publishCommit (publishCommit raceInit t₁) t₂) t₂ = false
    ∧ ((List.finRange 2).filter
        (fun t => isLive (publishCommit (publishCommit raceInit t₁) t₂) t)).length = 1 := by
  revert hne
  revert t₁ t₂
  decide

/-- Witness for C1 at the concrete commit order 0 then 1. -/
theorem race_exactly_one_live_witness :
    (publishCommit (publishCommit raceInit 0) 1).published = some 0
    ∧ isLive (publishCommit (publishCommit raceInit 0) 1) 0 = true
    ∧ isLive (publishCommit (publishCommit raceInit 0) 1) 1 = false
    ∧ ((List.finRange 2).filter
        (fun t => isLive (publishCommit (publishCommit raceInit 0) 1) t)).length = 1 :=
  race_exactly_one_live 0 1 (by decide)

/- ===================== models (models/script.go) ===================== -/

/-- `models.CommandOutput`: the record of one executed (or skipped)
command.  The `StartTime`/`EndTime` wall-clock stamps carry no verified
information and are omitted. -/
structure CommandOutput where
  command : String
  output : String
  error : String
  status : String
deriving DecidableEq, Repr

/-- `services.ParsedCommand` of the current executor
(services/enhanced_script_executor.go lines 51-55). -/
structure ParsedCommand where
  command : String
  commandType : String
deriving DecidableEq, Repr

/-- The `CommandExecutor` interface (services/enhanced_script_executor.go
lines 406-414), as implemented by the SSH controller; each method takes
the server identifier and returns output plus an optional error text. -/
structure CommandExecutor where
  execCommand : String → String → String × Option String
  execUploadFile : String → String → String → String × Option String
  execDownloadFile : String → String → String → String × Option String
  ensureSFTPClient : String → Option String
  execCommandDirect : String → String → String × Option String
  execCommandsInSharedSession : String → List String → List String × Option String

/- ============ EnhancedScriptExecutor (current version) ============
   services/enhanced_script_executor.go -/

/-- The command classification shared by `ParseCommands` (lines 29-46)
and `preprocessScriptForFileOperations` (lines 175-197): a `$upload ` /
`$download ` prefix selects a file operation and is stripped, everything
else is a shell command. -/
def classifyCommand (cmd : String) : ParsedCommand :=
  let trimmedCmd := goTrimSpace cmd
  if goStartsWith trimmedCmd "$upload " then
    { commandType := "upload", command := goTrimSpace (goStripPre trimmedCmd "$upload") }
  else if goStartsWith trimmedCmd "$download " then
    { commandType := "download", command := goTrimSpace (goStripPre trimmedCmd "$download") }
  else
    { commandType := "shell", command := cmd }

/-- `EnhancedScriptExecutor.ParseCommands` (lines 25-49). -/
def enhancedParseCommands (scriptContent : String) : List ParsedCommand :=
  (parseCommands scriptContent).map classifyCommand

/-- `preprocessScriptForFileOperations` (lines 166-218): when the parsed
script holds no file operation, return the script unchanged and no
commands; otherwise return the shell lines joined by newlines together
with the full mixed command list in original order. -/
def preprocessScriptForFileOperations (scriptContent : String) :
    String × List ParsedCommand :=
  let commands := parseCommands scriptContent
  let mixedCommands := commands.map classifyCommand
  let hasFileOperations := mixedCommands.any
    (fun c => c.commandType = "upload" || c.commandType = "download")
  if hasFileOperations then
    let shellCommands := (mixedCommands.filter (fun c => c.commandType = "shell")).map
      (fun c => c.command)
    (goJoinWith "\n" shellCommands, mixedCommands)
  else (scriptContent, [])

/-- `handleUploadCommand` (lines 221-259): parse "local remote-dir",
derive the remote file path from the local base name, ensure the SFTP
client and upload. -/
def handleUploadCommand (ex : CommandExecutor) (serverID command : String) :
    String × Option String :=
  match goFields command with
  | localPath :: remoteDir :: _ =>
    let localFileName :=
      if goContainsChar localPath '/' then goAfterLast localPath '/'
      else if goContainsChar localPath '\\' then goAfterLast localPath '\\'
      else localPath
    let remotePath :=
      (if goEndsWith remoteDir "/" then remoteDir else remoteDir ++ "/") ++ localFileName
    (match ex.ensureSFTPClient serverID with
     | some e => ("", some ("创建SFTP客户端失败: " ++ e))
     | none =>
       match ex.execUploadFile serverID localPath remotePath with
       | (_, some e) => ("", some ("文件上传失败: " ++ e))
       | (_, none) => ("文件上传成功: " ++ localPath ++ " -> " ++ remotePath, none))
  | _ => ("", some "上传命令格式错误: $upload 本地文件路径 远程保存目录")

/-- `handleDownloadCommand` (lines 261-285). -/
def handleDownloadCommand (ex : CommandExecutor) (serverID command : String) :
    String × Option String :=
  match goFields command with
  | remotePath :: localPath :: _ =>
    (match ex.ensureSFTPClient serverID with
     | some e => ("", some ("创建SFTP客户端失败: " ++ e))
     | none =>
       match ex.execDownloadFile serverID remotePath localPath with
       | (_, some e) => ("", some ("文件下载失败: " ++ e))
       | (_, none) => ("文件下载成功: " ++ remotePath ++ " -> " ++ localPath, none))
  | _ => ("", some "下载命令格式错误: $download 远程文件路径 本地保存路径")

/-- The error-message cleanup used by the executors (lines 330-336 and
89-96): strip one leading "执行命令失败:" wrapper via `strings.SplitN`. -/
def cleanErrMsg (errorMsg : String) : String :=
  if goContainsSub errorMsg "执行命令失败:" then
    match goSplitN3 errorMsg ':' with
    | _ :: _ :: third :: _ => goTrimSpace third
    | _ => errorMsg
  else errorMsg

/-- The file-operation loop of `ExecuteCommandMode` (lines 308-351):
each file operation is executed in order; a failure appends one failed
record and aborts with the `true` flag (the Go early `return`), a
success appends a success record and continues. -/
def runFileOpCmd (ex : CommandExecutor) (serverID : String) (c : ParsedCommand) :
    String × Option String :=
  if c.commandType = "upload" then handleUploadCommand ex serverID c.command
  else if c.commandType = "download" then handleDownloadCommand ex serverID c.command
  else ("", none)

def runFileOps (ex : CommandExecutor) (serverID : String) :
    List ParsedCommand → List CommandOutput → List CommandOutput × Bool
  | [], acc => (acc, false)
  | c :: rest, acc =>
    match runFileOpCmd ex serverID c with
    | (output, some e) =>
      let errorMsg := cleanErrMsg e
      let errText :=
        if c.commandType = "upload" then "文件上传失败: " ++ errorMsg
        else "文件下载失败: " ++ errorMsg
      (acc ++ [{ command := c.command, output := if output = "" then errText else output,
                 error := errText, status := "failed" }], true)
    | (output, none) =>
      runFileOps ex serverID rest
        (acc ++ [{ command := c.command, output := output, error := "", status := "success" }])

/-- The per-shell-command failure records of `ExecuteCommandMode`
(lines 356-373): on shared-session failure every shell command is marked
failed, with its partial output when available and the error otherwise. -/
def shellFailRecords (e : String) : List String → List String → List CommandOutput
  | [], _ => []
  | cmd :: cmds, o :: os =>
    { command := cmd, output := o, error := e, status := "failed" }
      :: shellFailRecords e cmds os
  | cmd :: cmds, [] =>
    { command := cmd, output := e, error := e, status := "failed" }
      :: shellFailRecords e cmds []

/-- The per-shell-command success records (lines 376-391). -/
def shellOkRecords : List String → List String → List CommandOutput
  | [], _ => []
  | cmd :: cmds, o :: os =>
    { command := cmd, output := o, error := "", status := "success" }
      :: shellOkRecords cmds os
  | cmd :: cmds, [] =>
    { command := cmd, output := "命令执行完成，无输出", error := "", status := "success" }
      :: shellOkRecords cmds []

/-- `ExecuteCommandMode` (lines 287-395): file operations are separated
from shell commands and run first, individually, stopping at the first
failure; the shell commands are then executed as one batch in a shared
session, with all-failed or all-success records. -/
def executeCommandMode (ex : CommandExecutor) (serverID : String)
    (commands : List ParsedCommand) : List CommandOutput × Option String :=
  let fileOps := commands.filter
    (fun c => c.commandType = "upload" || c.commandType = "download")
  let shellCommands := (commands.filter (fun c => c.commandType = "shell")).map
    (fun c => c.command)
  match runFileOps ex serverID fileOps [] with
  | (outputs, true) => (outputs, some "文件操作失败")
  | (outputs, false) =>
    if shellCommands.length > 0 then
      match ex.execCommandsInSharedSession serverID shellCommands with
      | (outs, some e) => (outputs ++ shellFailRecords e shellCommands outs, some e)
      | (outs, none) => (outputs ++ shellOkRecords shellCommands outs, none)
    else (outputs, none)

/-- Digits, for the line-number extraction. -/
def charIsDigit (c : Char) : Bool :=
  '0' ≤ c && c ≤ '9'

/-- Search for the first occurrence of `pat` followed by one or more
digits (and by `sufOpt` when given), returning the digit run — the
fixed line-number regular expressions of `extractLineInfoFromError`. -/
def findNumAfter (pat : List Char) (sufOpt : Option (List Char)) :
    List Char → Option String
  | [] => none
  | c :: rest =>
    if pat.isPrefixOf (c :: rest) then
      let tl := (c :: rest).drop pat.length
      let ds := tl.takeWhile charIsDigit
      let sufOk : Bool :=
        match sufOpt with
        | none => true
        | some suf => suf.isPrefixOf (tl.drop ds.length)
      if ds.isEmpty = false && sufOk then some ⟨ds⟩
      else findNumAfter pat sufOpt rest
    else findNumAfter pat sufOpt rest

/-- The six line-number patterns of `extractLineInfoFromError`
(lines 128-143), tried in order. -/
def findLinePattern (errorMsg : List Char) :
    List (List Char × Option (List Char)) → Option String
  | [] => none
  | (pat, suf) :: rest =>
    match findNumAfter pat suf errorMsg with
    | some s => some s
    | none => findLinePattern errorMsg rest

/-- The fallback scan of `extractLineInfoFromError` (lines 146-161):
the first nonempty non-`#` script line whose first word occurs in the
error message names the line (1-based). -/
def scanScriptLines (errorMsg : String) : Nat → List String → String
  | _, [] => ""
  | i, line :: rest =>
    let trimmedLine := goTrimSpace line
    if trimmedLine ≠ "" ∧ goStartsWith trimmedLine "#" = false then
      match goFields trimmedLine with
      | firstWord :: _ =>
        if goContainsSub errorMsg firstWord then toString (i + 1)
        else scanScriptLines errorMsg (i + 1) rest
      | [] => scanScriptLines errorMsg (i + 1) rest
    else scanScriptLines errorMsg (i + 1) rest

/-- `extractLineInfoFromError` (lines 126-163). -/
def extractLineInfoFromError (errorMsg scriptContent : String) : String :=
  match findLinePattern errorMsg.data
      [("line ".data, none), ("行 ".data, none), ("at line ".data, none),
       ("第".data, some "行".data), ("syntax error at line ".data, none),
       ("error on line ".data, none)] with
  | some s => s
  | none => scanScriptLines errorMsg 0 (goSplitOnChar scriptContent '\n')

/-- `ExecuteScriptMode` (lines 57-123): a script containing file
operations is re-routed to `ExecuteCommandMode` on the full mixed
command list; otherwise the whole script runs as one direct command and
yields a single record. -/
def executeScriptMode (ex : CommandExecutor) (serverID : String)
    (scriptContent : String) : List CommandOutput × Option String :=
  let pre := preprocessScriptForFileOperations scriptContent
  if pre.2.length > 0 then
    executeCommandMode ex serverID pre.2
  else
    match ex.execCommandDirect serverID pre.1 with
    | (output, some e) =>
      let errorMsg := cleanErrMsg e
      let lineInfo := extractLineInfoFromError errorMsg scriptContent
      let errText :=
        if lineInfo ≠ "" then "脚本执行失败 (第" ++ lineInfo ++ "行): " ++ errorMsg
        else "脚本执行失败: " ++ errorMsg
      ([{ command := "[完整脚本执行]",
          output := if output = "" then errText else output ++ "\n错误信息: " ++ errText,
          error := errText, status := "failed" }], none)
    | (output, none) =>
      ([{ command := "[完整脚本执行]",
          output := if output = "" then "脚本执行完成，无输出内容" else output,
          error := "", status := "success" }], none)

/- ============ EnhancedScriptExecutor (legacy revision) ============
   the per-command executor with the `$ne` continue-on-error flag and
   skip records (unnamed source file, `ExecuteCommands` lines 65-132) -/

/-- `services.ParsedCommand` of the legacy executor revision, with the
continue-on-error flag. -/
structure LegacyParsedCommand where
  command : String
  commandType : String
  continueOnError : Bool
deriving DecidableEq, Repr

/-- The legacy `handleUploadCommand`: identical to the current one
except that it returns the upload result text itself. -/
def handleUploadCommandLegacy (ex : CommandExecutor) (serverID command : String) :
    String × Option String :=
  match goFields command with
  | localPath :: remoteDir :: _ =>
    let localFileName :=
      if goContainsChar localPath '/' then goAfterLast localPath '/'
      else if goContainsChar localPath '\\' then goAfterLast localPath '\\'
      else localPath
    let remotePath :=
      (if goEndsWith remoteDir "/" then remoteDir else remoteDir ++ "/") ++ localFileName
    (match ex.ensureSFTPClient serverID with
     | some e => ("", some ("创建SFTP客户端失败: " ++ e))
     | none =>
       match ex.execUploadFile serverID localPath remotePath with
       | (_, some e) => ("", some ("文件上传失败: " ++ e))
       | (result, none) => (result, none))
  | _ => ("", some "上传命令格式错误: $upload 本地文件路径 远程保存目录")

/-- The legacy `handleDownloadCommand`. -/
def handleDownloadCommandLegacy (ex : CommandExecutor) (serverID command : String) :
    String × Option String :=
  match goFields command with
  | remotePath :: localPath :: _ =>
    (match ex.ensureSFTPClient serverID with
     | some e => ("", some ("创建SFTP客户端失败: " ++ e))
     | none =>
       match ex.execDownloadFile serverID remotePath localPath with
       | (_, some e) => ("", some ("文件下载失败: " ++ e))
       | (result, none) => (result, none))
  | _ => ("", some "下载命令格式错误: $download 远程文件路径 本地保存路径")

/-- The command dispatch of the legacy `ExecuteCommands` loop
(the `switch` on the command type). -/
def runLegacyCommand (ex : CommandExecutor) (serverID : String)
    (c : LegacyParsedCommand) : String × Option String :=
  if c.commandType = "upload" then handleUploadCommandLegacy ex serverID c.command
  else if c.commandType = "download" then handleDownloadCommandLegacy ex serverID c.command
  else ex.execCommand serverID c.command

/-- The loop body of the legacy `ExecuteCommands`: once `shouldStop` is
set, every remaining command gets a `skipped` record with empty output;
a failure stores the error (with the detailed output when present) and,
without the continue-on-error flag, sets `shouldStop`. -/
def legacyLoop (ex : CommandExecutor) (serverID : String) :
    List LegacyParsedCommand → Bool → List CommandOutput → List CommandOutput
  | [], _, acc => acc
  | c :: rest, shouldStop, acc =>
    if shouldStop then
      legacyLoop ex serverID rest shouldStop
        (acc ++ [{ command := c.command, output := "", error := "", status := "skipped" }])
    else
      match runLegacyCommand ex serverID c with
      | (output, some e) =>
        legacyLoop ex serverID rest (!c.continueOnError)
          (acc ++ [{ command := c.command, output := output,
                     error := if output ≠ "" then e ++ "\n详细输出:\n" ++ output else e,
                     status := "failed" }])
      | (output, none) =>
        legacyLoop ex serverID rest shouldStop
          (acc ++ [{ command := c.command, output := output, error := "",
                     status := "success" }])

/-- The legacy `ExecuteCommands` (always returns a `nil` error). -/
def executeCommandsLegacy (ex : CommandExecutor) (serverID : String)
    (commands : List LegacyParsedCommand) : List CommandOutput × Option String :=
  (legacyLoop ex serverID commands false [], none)

/-- Modelled from the spec (C2 wording): execute commands in order; the
first failure is recorded `failed` and every later command is recorded
`skipped` with empty output. -/
def firstFailRecords (ex : CommandExecutor) (serverID : String) :
    List LegacyParsedCommand → List CommandOutput
  | [] => []
  | c :: rest =>
    match runLegacyCommand ex serverID c with
    | (output, some e) =>
      { command := c.command, output := output,
        error := if output ≠ "" then e ++ "\n详细输出:\n" ++ output else e,
        status := "failed" }
        :: rest.map (fun c2 =>
            { command := c2.command, output := "", error := "", status := "skipped" })
    | (output, none) =>
      { command := c.command, output := output, error := "", status := "success" }
        :: firstFailRecords ex serverID rest

/- ============ Lemmas about the current command mode ============ -/

theorem runFileOps_nil (ex : CommandExecutor) (sid : String) (acc : List CommandOutput) :
    runFileOps ex sid [] acc = (acc, false) := rfl

theorem runFileOps_cons (ex : CommandExecutor) (sid : String) (c : ParsedCommand)
    (rest : List ParsedCommand) (acc : List CommandOutput) :
    runFileOps ex sid (c :: rest) acc
      = (match runFileOpCmd ex sid c with
        | (output, some e) =>
          let errorMsg := cleanErrMsg e
          let errText :=
            if c.commandType = "upload" then "文件上传失败: " ++ errorMsg
            else "文件下载失败: " ++ errorMsg
          (acc ++ [{ command := c.command, output := if output = "" then errText else output,
                     error := errText, status := "failed" }], true)
        | (output, none) =>
          runFileOps ex sid rest
            (acc ++ [{ command := c.command, output := output, error := "",
                       status := "success" }])) := rfl

theorem runFileOps_no_skip (ex : CommandExecutor) (sid : String) :
    ∀ (fo : List ParsedCommand) (acc : List CommandOutput) (r : CommandOutput),
      r ∈ (runFileOps ex sid fo acc).1 → r ∈ acc ∨ r.status ≠ "skipped" := by
  intro fo
  induction fo with
  | nil =>
    intro acc r hr
    rw [runFileOps_nil] at hr
    exact Or.inl hr
  | cons c rest ih =>
    intro acc r hr
    rw [runFileOps_cons] at hr
    rcases hc : runFileOpCmd ex sid c with ⟨output, err⟩
    rw [hc] at hr
    cases err with
    | some e =>
      simp only at hr
      rcases List.mem_append.mp hr with hacc | hnew
      · exact Or.inl hacc
      · right
        simp at hnew
        rw [hnew]
        show ("failed" : String) ≠ "skipped"
        decide
    | none =>
      simp only at hr
      rcases ih _ r hr with hacc | hst
      · rcases List.mem_append.mp hacc with h1 | h2
        · exact Or.inl h1
        · right
          simp at h2
          rw [h2]
          show ("success" : String) ≠ "skipped"
          decide
      · exact Or.inr hst

theorem runFileOps_ok_commands (ex : CommandExecutor) (sid : String) :
    ∀ (fo : List ParsedCommand) (acc recs : List CommandOutput),
      runFileOps ex sid fo acc = (recs, false) →
      recs.map (fun r => r.command)
        = acc.map (fun r => r.command) ++ fo.map (fun c => c.command) := by
  intro fo
  induction fo with
  | nil =>
    intro acc recs h
    rw [runFileOps_nil] at h
    cases h
    simp
  | cons c rest ih =>
    intro acc recs h
    rw [runFileOps_cons] at h
    rcases hc : runFileOpCmd ex sid c with ⟨output, err⟩
    rw [hc] at h
    cases err with
    | some e =>
      simp only at h
      exact absurd (congrArg Prod.snd h) (by simp)
    | none =>
      simp only at h
      have := ih _ recs h
      rw [this]
      simp

theorem shellFailRecords_shape (e : String) :
    ∀ (cmds os : List String),
      (shellFailRecords e cmds os).map (fun r => r.command) = cmds
      ∧ ∀ r ∈ shellFailRecords e cmds os, r.status = "failed" := by
  intro cmds
  induction cmds with
  | nil =>
    intro os
    cases os <;> exact ⟨rfl, by intro r hr; cases hr⟩
  | cons cmd rest ih =>
    intro os
    cases os with
    | nil =>
      refine ⟨by simp [shellFailRecords, (ih []).1], ?_⟩
      intro r hr
      rcases List.mem_cons.mp hr with rfl | hmem
      · rfl
      · exact (ih []).2 r hmem
    | cons o os' =>
      refine ⟨by simp [shellFailRecords, (ih os').1], ?_⟩
      intro r hr
      rcases List.mem_cons.mp hr with rfl | hmem
      · rfl
      · exact (ih os').2 r hmem

theorem shellOkRecords_shape :
    ∀ (cmds os : List String),
      (shellOkRecords cmds os).map (fun r => r.command) = cmds
      ∧ ∀ r ∈ shellOkRecords cmds os, r.status = "success" := by
  intro cmds
  induction cmds with
  | nil =>
    intro os
    cases os <;> exact ⟨rfl, by intro r hr; cases hr⟩
  | cons cmd rest ih =>
    intro os
    cases os with
    | nil =>
      refine ⟨by simp [shellOkRecords, (ih []).1], ?_⟩
      intro r hr
      rcases List.mem_cons.mp hr with rfl | hmem
      · rfl
      · exact (ih []).2 r hmem
    | cons o os' =>
      refine ⟨by simp [shellOkRecords, (ih os').1], ?_⟩
      intro r hr
      rcases List.mem_cons.mp hr with rfl | hmem
      · rfl
      · exact (ih os').2 r hmem

theorem executeCommandMode_no_skip (ex : CommandExecutor) (sid : String)
    (cmds : List ParsedCommand) :
    ∀ r ∈ (executeCommandMode ex sid cmds).1, r.status ≠ "skipped" := by
  intro r hr
  simp only [executeCommandMode] at hr
  rcases hro : runFileOps ex sid
      (cmds.filter (fun c => c.commandType = "upload" || c.commandType = "download")) [] with
    ⟨outputs, flag⟩
  rw [hro] at hr
  have houtmem : ∀ x ∈ outputs, x.status ≠ "skipped" := by
    intro x hx
    have hx1 : x ∈ (runFileOps ex sid
        (cmds.filter (fun c => c.commandType = "upload" || c.commandType = "download")) []).1 := by
      rw [hro]
      exact hx
    rcases runFileOps_no_skip ex sid _ [] x hx1 with h | h
    · cases h
    · exact h
  cases flag with
  | true =>
    simp only at hr
    exact houtmem r hr
  | false =>
    simp only at hr
    by_cases hlen : ((cmds.filter (fun c => c.commandType = "shell")).map
        (fun c => c.command)).length > 0
    · rw [if_pos hlen] at hr
      rcases hss : ex.execCommandsInSharedSession sid
          ((cmds.filter (fun c => c.commandType = "shell")).map (fun c => c.command)) with
        ⟨outs, err⟩
      rw [hss] at hr
      cases err with
      | some e =>
        simp only at hr
        rcases List.mem_append.mp hr with h1 | h2
        · exact houtmem r h1
        · rw [(shellFailRecords_shape e _ outs).2 r h2]
          decide
      | none =>
        simp only at hr
        rcases List.mem_append.mp hr with h1 | h2
        · exact houtmem r h1
        · rw [(shellOkRecords_shape _ outs).2 r h2]
          decide
    · rw [if_neg hlen] at hr
      exact houtmem r hr

/- ============ Lemmas about the legacy command execution ============ -/

theorem legacyLoop_cons (ex : CommandExecutor) (sid : String) (c : LegacyParsedCommand)
    (rest : List LegacyParsedCommand) (stop : Bool) (acc : List CommandOutput) :
    legacyLoop ex sid (c :: rest) stop acc
      = (if stop then
          legacyLoop ex sid rest stop
            (acc ++ [{ command := c.command, output := "", error := "", status := "skipped" }])
        else
          match runLegacyCommand ex sid c with
          | (output, some e) =>
            legacyLoop ex sid rest (!c.continueOnError)
              (acc ++ [{ command := c.command, output := output,
                         error := if output ≠ "" then e ++ "\n详细输出:\n" ++ output else e,
                         status := "failed" }])
          | (output, none) =>
            legacyLoop ex sid rest stop
              (acc ++ [{ command := c.command, output := output, error := "",
                         status := "success" }])) := rfl

theorem firstFailRecords_cons (ex : CommandExecutor) (sid : String)
    (c : LegacyParsedCommand) (rest : List LegacyParsedCommand) :
    firstFailRecords ex sid (c :: rest)
      = (match runLegacyCommand ex sid c with
        | (output, some e) =>
          { command := c.command, output := output,
            error := if output ≠ "" then e ++ "\n详细输出:\n" ++ output else e,
            status := "failed" }
            :: rest.map (fun c2 =>
                { command := c2.command, output := "", error := "", status := "skipped" })
        | (output, none) =>
          { command := c.command, output := output, error := "", status := "success" }
            :: firstFailRecords ex sid rest) := rfl

theorem legacyLoop_stopped (ex : CommandExecutor) (sid : String) :
    ∀ (cmds : List LegacyParsedCommand) (acc : List CommandOutput),
      legacyLoop ex sid cmds true acc
        = acc ++ cmds.map (fun c =>
            { command := c.command, output := "", error := "", status := "skipped" }) := by
  intro cmds
  induction cmds with
  | nil => intro acc; simp [legacyLoop]
  | cons c rest ih =>
    intro acc
    rw [legacyLoop_cons, if_pos rfl, ih]
    simp

theorem legacyLoop_firstFail (ex : CommandExecutor) (sid : String) :
    ∀ (cmds : List LegacyParsedCommand) (acc : List CommandOutput),
      (∀ c ∈ cmds, c.continueOnError = false) →
      legacyLoop ex sid cmds false acc = acc ++ firstFailRecords ex sid cmds := by
  intro cmds
  induction cmds with
  | nil => intro acc _; simp [legacyLoop, firstFailRecords]
  | cons c rest ih =>
    intro acc hflags
    have hc : c.continueOnError = false := hflags c (List.mem_cons_self c rest)
    have hrest : ∀ x ∈ rest, x.continueOnError = false :=
      fun x hx => hflags x (List.mem_cons_of_mem c hx)
    rw [legacyLoop_cons, if_neg (by simp), firstFailRecords_cons]
    rcases hrun : runLegacyCommand ex sid c with ⟨output, err⟩
    cases err with
    | some e =>
      simp only [hc, Bool.not_false]
      rw [legacyLoop_stopped]
      simp
    | none =>
      simp only
      rw [ih _ hrest]
      simp

/- ============ Concrete executors for counterexamples/witnesses ============ -/

/-- An executor on which every operation succeeds. -/
def exAllOk : CommandExecutor := {
  execCommand := fun _ c => ("ok:" ++ c, none),
  execUploadFile := fun _ _ _ => ("uploaded", none),
  execDownloadFile := fun _ _ _ => ("downloaded", none),
  ensureSFTPClient := fun _ => none,
  execCommandDirect := fun _ _ => ("ran", none),
  execCommandsInSharedSession := fun _ cmds => (cmds.map (fun c => "out:" ++ c), none) }

/-- An executor whose shared-session batch fails (the middle command of
the batch exits non-zero, so `CombinedOutput` reports one error for the
whole batch). -/
def exShellBatchFail : CommandExecutor := { exAllOk with
  execCommandsInSharedSession := fun _ _ => (["out1"], some "第2条命令失败") }

/-- An executor on which exactly the command `"false"` fails. -/
def exLegacyFail : CommandExecutor := { exAllOk with
  execCommand := fun _ c => if c = "false" then ("", some "exit status 1") else ("ok", none) }

/-- The `[ok, fail, ok]` shell command sequence for the current executor. -/
def okFailOkShell : List ParsedCommand :=
  [{ command := "true", commandType := "shell" },
   { command := "false", commandType := "shell" },
   { command := "echo done", commandType := "shell" }]

/-- The `[ok, fail, ok]` sequence with no continue-on-failure flag for
the legacy executor. -/
def legacyOkFailOk : List LegacyParsedCommand :=
  [{ command := "true", commandType := "shell", continueOnError := false },
   { command := "false", commandType := "shell", continueOnError := false },
   { command := "echo done", commandType := "shell", continueOnError := false }]

/-- Counterexample to C2 as stated: in the current command mode,
executing `[ok, fail, ok]` (where the shared-session batch fails)
yields `[failed, failed, failed]`, not `[success, failed, skipped]` —
no `skipped` record is ever produced. -/
theorem commandMode_ok_fail_ok_not_skipped :
    ((executeCommandMode exShellBatchFail "host" okFailOkShell).1.map (fun r => r.status))
      = ["failed", "failed", "failed"]
    ∧ (["failed", "failed", "failed"] : List String) ≠ ["success", "failed", "skipped"] :=
  ⟨rfl, by decide⟩

/-- Claim C2 (amended): the current command mode (`ExecuteCommandMode`)
never records a command as `skipped` — a failing file transfer halts
execution with the remaining commands omitted from the records, and a
failing shared-session shell batch records every shell command as
`failed`.  The stated policy — the first failing command halts all
subsequent commands, which are recorded `skipped` with empty output —
holds in the legacy per-command executor `ExecuteCommands` when no
continue-on-failure flag is set. -/
theorem commandMode_skip_policy :
    (∀ (ex : CommandExecutor) (serverID : String) (commands : List ParsedCommand),
      ∀ r ∈ (executeCommandMode ex serverID commands).1, r.status ≠ "skipped")
    ∧ (∀ (ex : CommandExecutor) (serverID : String) (commands : List LegacyParsedCommand),
        (∀ c ∈ commands, c.continueOnError = false) →
        executeCommandsLegacy ex serverID commands
          = (firstFailRecords ex serverID commands, none)) := by
  constructor
  · intro ex serverID commands
    exact executeCommandMode_no_skip ex serverID commands
  · intro ex serverID commands hflags
    rw [executeCommandsLegacy, legacyLoop_firstFail ex serverID commands [] hflags]
    simp

/-- Witness for C2 (amended) at the `[ok, fail, ok]` inputs; the legacy
instance evaluates to `[success, failed, skipped]` with empty third
output. -/
theorem commandMode_skip_policy_witness :
    (∀ r ∈ (executeCommandMode exShellBatchFail "host" okFailOkShell).1, r.status ≠ "skipped")
    ∧ executeCommandsLegacy exLegacyFail "host" legacyOkFailOk
        = (firstFailRecords exLegacyFail "host" legacyOkFailOk, none)
    ∧ ((executeCommandsLegacy exLegacyFail "host" legacyOkFailOk).1.map
        (fun r => (r.status, r.output)))
      = [("success", "ok"), ("failed", ""), ("skipped", "")] :=
  ⟨fun r hr => commandMode_skip_policy.1 exShellBatchFail "host" okFailOkShell r hr,
   commandMode_skip_policy.2 exLegacyFail "host" legacyOkFailOk (by decide),
   rfl⟩

/- ============ Claim C3: script-mode re-routing ============ -/

theorem executeCommandMode_ok_shape (ex : CommandExecutor) (sid : String)
    (cmds : List ParsedCommand)
    (hok : (executeCommandMode ex sid cmds).2 = none) :
    (executeCommandMode ex sid cmds).1.map (fun r => r.command)
      = ((cmds.filter (fun c => c.commandType = "upload" || c.commandType = "download")).map
          (fun c => c.command))
        ++ ((cmds.filter (fun c => c.commandType = "shell")).map (fun c => c.command)) := by
  simp only [executeCommandMode] at hok ⊢
  rcases hro : runFileOps ex sid
      (cmds.filter (fun c => c.commandType = "upload" || c.commandType = "download")) [] with
    ⟨outputs, flag⟩
  rw [hro] at hok
  cases flag with
  | true => simp at hok
  | false =>
    simp only at hok ⊢
    have houts : outputs.map (fun r => r.command)
        = (cmds.filter (fun c => c.commandType = "upload" || c.commandType = "download")).map
            (fun c => c.command) := by
      have h := runFileOps_ok_commands ex sid _ [] outputs hro
      simpa using h
    by_cases hlen : ((cmds.filter (fun c => c.commandType = "shell")).map
        (fun c => c.command)).length > 0
    · rw [if_pos hlen] at hok ⊢
      rcases hss : ex.execCommandsInSharedSession sid
          ((cmds.filter (fun c => c.commandType = "shell")).map (fun c => c.command)) with
        ⟨outs, err⟩
      rw [hss] at hok
      cases err with
      | some e => simp at hok
      | none =>
        rw [hss]
        show (outputs ++ shellOkRecords
            ((cmds.filter (fun c => c.commandType = "shell")).map (fun c => c.command))
            outs).map (fun r => r.command) = _
        rw [List.map_append, houts, (shellOkRecords_shape _ outs).1]
    · rw [if_neg hlen] at hok ⊢
      show outputs.map (fun r => r.command) = _
      have hne : (cmds.filter (fun c => c.commandType = "shell")).map
          (fun c => c.command) = [] := by
        by_contra h
        exact hlen (List.length_pos.mpr h)
      rw [houts, hne, List.append_nil]

theorem classifyCommand_type (cmd : String) :
    (classifyCommand cmd).commandType = "upload"
    ∨ (classifyCommand cmd).commandType = "download"
    ∨ (classifyCommand cmd).commandType = "shell" := by
  simp only [classifyCommand]
  by_cases h1 : goStartsWith (goTrimSpace cmd) "$upload " = true
  · rw [if_pos h1]
    exact Or.inl rfl
  · rw [if_neg h1]
    by_cases h2 : goStartsWith (goTrimSpace cmd) "$download " = true
    · rw [if_pos h2]
      exact Or.inr (Or.inl rfl)
    · rw [if_neg h2]
      exact Or.inr (Or.inr rfl)

theorem commandTypes_partition :
    ∀ (cmds : List ParsedCommand),
      (∀ c ∈ cmds, c.commandType = "upload" ∨ c.commandType = "download"
        ∨ c.commandType = "shell") →
      (cmds.filter (fun c => c.commandType = "upload" || c.commandType = "download")).length
        + (cmds.filter (fun c => c.commandType = "shell")).length = cmds.length := by
  intro cmds
  induction cmds with
  | nil => intro _; rfl
  | cons c rest ih =>
    intro h
    have hc := h c (List.mem_cons_self c rest)
    have hrest := ih (fun x hx => h x (List.mem_cons_of_mem c hx))
    simp only [List.filter_cons]
    rcases hc with h1 | h1 | h1 <;>
      simp [h1, List.length_cons] <;> omega

theorem preprocess_snd (s : String) :
    (preprocessScriptForFileOperations s).2 = []
    ∨ (preprocessScriptForFileOperations s).2 = (parseCommands s).map classifyCommand := by
  simp only [preprocessScriptForFileOperations]
  by_cases h : ((parseCommands s).map classifyCommand).any
      (fun c => c.commandType = "upload" || c.commandType = "download") = true
  · rw [if_pos h]
    exact Or.inr rfl
  · rw [if_neg h]
    exact Or.inl rfl

/-- Counterexample to C3 as stated: a script with one `$upload` between
two shell lines, run in script mode with every operation succeeding,
yields the upload record first — not at its original (second) position. -/
theorem scriptMode_upload_not_interleaved :
    ((executeScriptMode exAllOk "host" "echo a\n$upload f /tmp\necho b").1.map
        (fun r => r.command))
      = ["f /tmp", "echo a", "echo b"]
    ∧ (["f /tmp", "echo a", "echo b"] : List String) ≠ ["echo a", "f /tmp", "echo b"] :=
  ⟨rfl, by decide⟩

/-- Claim C3 (amended): a script whose parsed commands contain a
file-transfer directive is re-routed to command-mode semantics, and when
command mode reports no error it produces exactly one Command Output per
logical command line — but grouped, all file-transfer steps first in
their original relative order, then all shell steps in their original
relative order, not interleaved at their original positions. -/
theorem scriptMode_reroute (ex : CommandExecutor) (serverID s : String)
    (hfo : (preprocessScriptForFileOperations s).2 ≠ []) :
    executeScriptMode ex serverID s
      = executeCommandMode ex serverID (preprocessScriptForFileOperations s).2
    ∧ ((executeCommandMode ex serverID (preprocessScriptForFileOperations s).2).2 = none →
        ((executeCommandMode ex serverID (preprocessScriptForFileOperations s).2).1.map
            (fun r => r.command))
          = (((preprocessScriptForFileOperations s).2.filter
              (fun c => c.commandType = "upload" || c.commandType = "download")).map
                (fun c => c.command))
            ++ (((preprocessScriptForFileOperations s).2.filter
              (fun c => c.commandType = "shell")).map (fun c => c.command))
        ∧ (executeCommandMode ex serverID (preprocessScriptForFileOperations s).2).1.length
            = (preprocessScriptForFileOperations s).2.length) := by
  constructor
  · simp only [executeScriptMode]
    rw [if_pos (List.length_pos.mpr hfo)]
  · intro hok
    have hshape := executeCommandMode_ok_shape ex serverID _ hok
    refine ⟨hshape, ?_⟩
    have htypes : ∀ c ∈ (preprocessScriptForFileOperations s).2,
        c.commandType = "upload" ∨ c.commandType = "download" ∨ c.commandType = "shell" := by
      rcases preprocess_snd s with h | h
      · rw [h]
        intro c hc
        cases hc
      · rw [h]
        intro c hc
        obtain ⟨cmd, _, rfl⟩ := List.mem_map.mp hc
        exact classifyCommand_type cmd
    have hlen := congrArg List.length hshape
    simp only [List.length_map, List.length_append] at hlen
    rw [hlen]
    exact commandTypes_partition _ htypes

/-- Witness for C3 at the concrete one-upload script. -/
theorem scriptMode_reroute_witness :
    executeScriptMode exAllOk "host" "echo a\n$upload f /tmp\necho b"
      = executeCommandMode exAllOk "host"
          (preprocessScriptForFileOperations "echo a\n$upload f /tmp\necho b").2
    ∧ ((executeCommandMode exAllOk "host"
          (preprocessScriptForFileOperations "echo a\n$upload f /tmp\necho b").2).2 = none →
        ((executeCommandMode exAllOk "host"
            (preprocessScriptForFileOperations "echo a\n$upload f /tmp\necho b").2).1.map
              (fun r => r.command))
          = (((preprocessScriptForFileOperations "echo a\n$upload f /tmp\necho b").2.filter
              (fun c => c.commandType = "upload" || c.commandType = "download")).map
                (fun c => c.command))
            ++ (((preprocessScriptForFileOperations "echo a\n$upload f /tmp\necho b").2.filter
              (fun c => c.commandType = "shell")).map (fun c => c.command))
        ∧ (executeCommandMode exAllOk "host"
            (preprocessScriptForFileOperations "echo a\n$upload f /tmp\necho b").2).1.length
            = (preprocessScriptForFileOperations "echo a\n$upload f /tmp\necho b").2.length) :=
  scriptMode_reroute exAllOk "host" "echo a\n$upload f /tmp\necho b" (by decide)

/- ===================== SSHController registry =====================
   controllers/ssh_controller.go -/

/-- The registry maps of the `SSHController`, modelled by their key sets
(connections, SFTP clients, terminal sessions and the lazily created
per-server locks); the mapped resource handles are opaque I/O objects. -/
structure SSHControllerState where
  connections : List String
  sftpClients : List String
  terminalSessions : List String
  perServerLocks : List String
deriving DecidableEq, Repr

/-- `getServerLock` (lines 74-83): fetch the per-server lock, creating
and registering it when absent. -/
def getServerLock (sc : SSHControllerState) (serverID : String) : SSHControllerState :=
  if serverID ∈ sc.perServerLocks then sc
  else { sc with perServerLocks := sc.perServerLocks ++ [serverID] }

theorem getServerLock_connections (sc : SSHControllerState) (sid : String) :
    (getServerLock sc sid).connections = sc.connections := by
  unfold getServerLock
  split <;> rfl

theorem getServerLock_sftp (sc : SSHControllerState) (sid : String) :
    (getServerLock sc sid).sftpClients = sc.sftpClients := by
  unfold getServerLock
  split <;> rfl

theorem getServerLock_sessions (sc : SSHControllerState) (sid : String) :
    (getServerLock sc sid).terminalSessions = sc.terminalSessions := by
  unfold getServerLock
  split <;> rfl

theorem getServerLock_locks (sc : SSHControllerState) (sid : String) :
    (getServerLock sc sid).perServerLocks
      = (if sid ∈ sc.perServerLocks then sc.perServerLocks
        else sc.perServerLocks ++ [sid]) := by
  unfold getServerLock
  split <;> rfl

/-- The error list collected by `DisconnectFromServer` (lines 337-350):
only a terminal-session close failure (or timeout) is collected; the
SFTP close error is merely logged and the connection close returns
nothing. -/
def disconnectErrMsgs (sc : SSHControllerState) (serverID : String)
    (sessionCloseErr : Option String) : List String :=
  if serverID ∈ sc.terminalSessions then
    match sessionCloseErr with
    | some e => ["关闭终端会话失败: " ++ e]
    | none => []
  else []

/-- The map cleanup of `DisconnectFromServer` (lines 356-372): delete the
session, SFTP and connection entries that were present and always delete
the per-server lock. -/
def disconnectCleanup (sc : SSHControllerState) (serverID : String) : SSHControllerState :=
  { connections :=
      if serverID ∈ sc.connections then sc.connections.filter (fun k => k ≠ serverID)
      else sc.connections,
    sftpClients :=
      if serverID ∈ sc.sftpClients then sc.sftpClients.filter (fun k => k ≠ serverID)
      else sc.sftpClients,
    terminalSessions :=
      if serverID ∈ sc.terminalSessions then sc.terminalSessions.filter (fun k => k ≠ serverID)
      else sc.terminalSessions,
    perServerLocks := sc.perServerLocks.filter (fun k => k ≠ serverID) }

/-- `DisconnectFromServer` (lines 322-379).  `sessionCloseErr` is the
outcome of `closeSessionWithTimeout` (`none` for success or an expected
EOF, `some` for a failure or the 10s timeout); `sftpCloseErr` is the
outcome of the SFTP client close, which the source only logs. -/
def disconnectFromServer (sc : SSHControllerState) (serverID : String)
    (sessionCloseErr : Option String) (_sftpCloseErr : Option String) :
    (Except String String) × SSHControllerState :=
  let errMsgs := disconnectErrMsgs sc serverID sessionCloseErr
  if errMsgs.length > 0 then
    (Except.error ("断开连接时发生错误: " ++ goJoinWith "; " errMsgs),
      disconnectCleanup sc serverID)
  else
    (Except.ok "服务器连接已安全断开", disconnectCleanup sc serverID)

theorem not_mem_filter_ne (l : List String) (sid : String) :
    sid ∉ l.filter (fun k => k ≠ sid) := by
  intro h
  exact absurd rfl (of_decide_eq_true (List.mem_filter.mp h).2)

theorem disconnect_state (sc : SSHControllerState) (serverID : String)
    (sessionCloseErr sftpCloseErr : Option String) :
    (disconnectFromServer sc serverID sessionCloseErr sftpCloseErr).2
      = disconnectCleanup sc serverID := by
  simp only [disconnectFromServer]
  split <;> rfl

/-- Outcome of the terminal-session close inside `CloseTerminalSession`:
a clean close, an expected EOF (the connection was already gone), a
close failure, or the 1-second timeout. -/
inductive SessionCloseOutcome where
  | ok
  | eof
  | err (msg : String)
  | timeout
deriving DecidableEq, Repr

/-- `CloseTerminalSession` (lines 868-919): acquire (and lazily create)
the per-server lock, read the session; when absent return the
"session does not exist" message with a `nil` error; otherwise close
with a 1s timeout, delete the map entry regardless, and report a close
error or timeout. -/
def closeTerminalSession (sc : SSHControllerState) (serverID : String)
    (closeResult : SessionCloseOutcome) : (Except String String) × SSHControllerState :=
  let sc1 := getServerLock sc serverID
  if serverID ∈ sc1.terminalSessions then
    let errMsg :=
      match closeResult with
      | SessionCloseOutcome.err e => "关闭终端会话时出错: " ++ e
      | SessionCloseOutcome.timeout => "关闭终端会话超时"
      | _ => ""
    let sc2 := { sc1 with
      terminalSessions := sc1.terminalSessions.filter (fun k => k ≠ serverID) }
    if errMsg ≠ "" then (Except.error errMsg, sc2)
    else (Except.ok "终端会话已关闭", sc2)
  else (Except.ok "终端会话不存在", sc1)

/- ============ Claim C10 ============ -/

/-- Counterexample to C10 as stated: closing the terminal session of a
host absent from every map returns the success outcome but does not
leave all registry maps unchanged — the per-host lock map gains a
lazily created entry for the host. -/
theorem closeTerminalSession_creates_lock_entry :
    (closeTerminalSession ⟨[], [], [], []⟩ "host1" SessionCloseOutcome.ok).1
      = Except.ok "终端会话不存在"
    ∧ (closeTerminalSession ⟨[], [], [], []⟩ "host1" SessionCloseOutcome.ok).2
        ≠ (⟨[], [], [], []⟩ : SSHControllerState)
    ∧ (closeTerminalSession ⟨[], [], [], []⟩ "host1" SessionCloseOutcome.ok).2.perServerLocks
        = ["host1"] :=
  ⟨rfl, by decide, rfl⟩

/-- Claim C10 (amended): for a host absent from the session map,
`CloseTerminalSession` returns the "session does not exist" message with
a `nil` error and leaves the connection, SFTP and session maps
unchanged; the per-host lock map is unchanged only when the host already
had a lock entry, and otherwise gains one (lazily created by
`getServerLock`). -/
theorem closeTerminalSession_absent (sc : SSHControllerState) (serverID : String)
    (o : SessionCloseOutcome) (habs : serverID ∉ sc.terminalSessions) :
    (closeTerminalSession sc serverID o).1 = Except.ok "终端会话不存在"
    ∧ (closeTerminalSession sc serverID o).2.connections = sc.connections
    ∧ (closeTerminalSession sc serverID o).2.sftpClients = sc.sftpClients
    ∧ (closeTerminalSession sc serverID o).2.terminalSessions = sc.terminalSessions
    ∧ (closeTerminalSession sc serverID o).2.perServerLocks
        = (if serverID ∈ sc.perServerLocks then sc.perServerLocks
          else sc.perServerLocks ++ [serverID]) := by
  have habs1 : serverID ∉ (getServerLock sc serverID).terminalSessions := by
    rw [getServerLock_sessions]
    exact habs
  simp only [closeTerminalSession]
  rw [if_neg habs1]
  exact ⟨rfl, getServerLock_connections sc serverID, getServerLock_sftp sc serverID,
    getServerLock_sessions sc serverID, getServerLock_locks sc serverID⟩

/-- Witness for C10 (amended) at a host with a connection but no session. -/
theorem closeTerminalSession_absent_witness :
    (closeTerminalSession ⟨["h"], [], [], []⟩ "h" SessionCloseOutcome.ok).1
      = Except.ok "终端会话不存在"
    ∧ (closeTerminalSession ⟨["h"], [], [], []⟩ "h" SessionCloseOutcome.ok).2.connections
        = (⟨["h"], [], [], []⟩ : SSHControllerState).connections
    ∧ (closeTerminalSession ⟨["h"], [], [], []⟩ "h" SessionCloseOutcome.ok).2.sftpClients
        = (⟨["h"], [], [], []⟩ : SSHControllerState).sftpClients
    ∧ (closeTerminalSession ⟨["h"], [], [], []⟩ "h" SessionCloseOutcome.ok).2.terminalSessions
        = (⟨["h"], [], [], []⟩ : SSHControllerState).terminalSessions
    ∧ (closeTerminalSession ⟨["h"], [], [], []⟩ "h" SessionCloseOutcome.ok).2.perServerLocks
        = (if "h" ∈ (⟨["h"], [], [], []⟩ : SSHControllerState).perServerLocks
          then (⟨["h"], [], [], []⟩ : SSHControllerState).perServerLocks
          else (⟨["h"], [], [], []⟩ : SSHControllerState).perServerLocks ++ ["h"]) :=
  closeTerminalSession_absent ⟨["h"], [], [], []⟩ "h" SessionCloseOutcome.ok (by decide)

/- ============ Claim C7 ============ -/

/-- Counterexample to C7 as stated: a host with a connection and an SFTP
client but no session is disconnected while the SFTP close fails; the
failure is a close failure, yet the returned outcome is the plain
success message — SFTP (and connection) close failures are never
reported in the returned error. -/
theorem disconnect_sftp_failure_unreported :
    (disconnectFromServer ⟨["h"], ["h"], [], ["h"]⟩ "h" none (some "sftp close failed")).1
      = Except.ok "服务器连接已安全断开"
    ∧ (some "sftp close failed" : Option String) ≠ none :=
  ⟨rfl, by decide⟩

/-- Claim C7 (amended): `DisconnectFromServer` closes the session, SFTP
client and connection outside the shared lock and then removes all three
map entries and the per-host lock unconditionally — close failures never
prevent the removal; but only a terminal-session close failure (or its
timeout) is reported in the returned error, while SFTP-close failures
are merely logged and the connection close returns no error at all. -/
theorem disconnect_cleanup_amended (sc : SSHControllerState) (serverID : String)
    (sessErr sftpErr : Option String) :
    serverID ∉ (disconnectFromServer sc serverID sessErr sftpErr).2.connections
    ∧ serverID ∉ (disconnectFromServer sc serverID sessErr sftpErr).2.sftpClients
    ∧ serverID ∉ (disconnectFromServer sc serverID sessErr sftpErr).2.terminalSessions
    ∧ serverID ∉ (disconnectFromServer sc serverID sessErr sftpErr).2.perServerLocks
    ∧ ((∃ e, (disconnectFromServer sc serverID sessErr sftpErr).1 = Except.error e)
        ↔ (serverID ∈ sc.terminalSessions ∧ sessErr ≠ none)) := by
  rw [disconnect_state]
  have hmem : ∀ (l : List String),
      serverID ∉ (if serverID ∈ l then l.filter (fun k => k ≠ serverID) else l) := by
    intro l
    by_cases h : serverID ∈ l
    · rw [if_pos h]
      exact not_mem_filter_ne l serverID
    · rw [if_neg h]
      exact h
  refine ⟨hmem sc.connections, hmem sc.sftpClients, hmem sc.terminalSessions,
    not_mem_filter_ne sc.perServerLocks serverID, ?_⟩
  unfold disconnectFromServer disconnectErrMsgs
  by_cases hs : serverID ∈ sc.terminalSessions
  · rw [if_pos hs]
    cases sessErr with
    | some e =>
      simp only [List.length_cons, List.length_nil]
      rw [if_pos (by omega)]
      constructor
      · intro _
        exact ⟨hs, by simp⟩
      · intro _
        exact ⟨_, rfl⟩
    | none =>
      simp only [List.length_nil]
      rw [if_neg (by omega)]
      constructor
      · intro ⟨e, he⟩
        cases he
      · intro ⟨_, hne⟩
        exact absurd rfl hne
  · rw [if_neg hs]
    simp only [List.length_nil]
    rw [if_neg (by omega)]
    constructor
    · intro ⟨e, he⟩
      cases he
    · intro ⟨hmem', _⟩
      exact absurd hmem' hs

/-- Witness for C7 (amended) at a fully populated host entry whose
session close times out. -/
theorem disconnect_cleanup_amended_witness :
    "h" ∉ (disconnectFromServer ⟨["h"], ["h"], ["h"], ["h"]⟩ "h" (some "关闭会话超时") none).2.connections
    ∧ "h" ∉ (disconnectFromServer ⟨["h"], ["h"], ["h"], ["h"]⟩ "h" (some "关闭会话超时") none).2.sftpClients
    ∧ "h" ∉ (disconnectFromServer ⟨["h"], ["h"], ["h"], ["h"]⟩ "h" (some "关闭会话超时") none).2.terminalSessions
    ∧ "h" ∉ (disconnectFromServer ⟨["h"], ["h"], ["h"], ["h"]⟩ "h" (some "关闭会话超时") none).2.perServerLocks
    ∧ ((∃ e, (disconnectFromServer ⟨["h"], ["h"], ["h"], ["h"]⟩ "h" (some "关闭会话超时") none).1
          = Except.error e)
        ↔ ("h" ∈ (⟨["h"], ["h"], ["h"], ["h"]⟩ : SSHControllerState).terminalSessions
          ∧ (some "关闭会话超时" : Option String) ≠ none)) :=
  disconnect_cleanup_amended ⟨["h"], ["h"], ["h"], ["h"]⟩ "h" (some "关闭会话超时") none

/- ============ Claim C6: ExecuteBatchScript ============
   controllers/ssh_controller.go lines 962-1096 -/

/-- `models.BatchScript` (timestamps omitted as elsewhere). -/
structure BatchScript where
  id : String
  name : String
  description : String
  content : String
  serverIDs : List String
  executionType : String
deriving Repr

/-- `models.ScriptExecution`: one fan-out worker's record.  The worker's
generated `ID` embeds a Unix timestamp in the source; the timestamp part
is abstracted away. -/
structure ScriptExecution where
  id : String
  scriptID : String
  serverID : String
  serverName : String
  status : String
  output : String
  error : String
  commandOutputs : List CommandOutput
deriving DecidableEq, Repr

/-- What one per-host worker's executor invocation produced: the command
outputs and the execution-level error (`ExecuteScriptMode` /
`ExecuteCommandMode` result, or the "no valid commands" error). -/
structure HostRun where
  commandOutputs : List CommandOutput
  execErr : Option String

/-- The status/error determination of the worker body
(lines 1031-1071): an execution error wins; otherwise a failed command
output makes the host record failed with the first failed command's
error (or output, or a default), with a second default backstop; else
success. -/
def execStatusError (commandOutputs : List CommandOutput) (execErr : Option String) :
    String × String :=
  match execErr with
  | some e => ("failed", "执行错误: " ++ e)
  | none =>
    if commandOutputs.any (fun c => c.status = "failed") then
      let errText :=
        match commandOutputs.find? (fun c => c.status = "failed") with
        | some c =>
          if c.error ≠ "" then c.error
          else if c.output ≠ "" then c.output
          else "命令执行失败，但没有详细的错误信息"
        | none => ""
      ("failed", if errText = "" then "脚本执行过程中发生了未知的错误" else errText)
    else ("success", "")

/-- The final backstop of lines 1069-1071: a failed status never carries
an empty error text. -/
def execFinalCheck (se : String × String) : String × String :=
  if se.1 = "failed" ∧ se.2 = "" then (se.1, "执行失败，但未能获取具体的错误信息") else se

/-- The output/error propagation of lines 1074-1086: when the execution
failed and the last command output is itself failed, its output (and,
when the error is still empty, its error) is copied into the execution
record, whose own output starts empty. -/
def execPropagate (se : String × String) (commandOutputs : List CommandOutput) :
    String × String :=
  if se.1 = "failed" ∧ commandOutputs ≠ [] then
    match commandOutputs.getLast? with
    | some lastCmd =>
      if lastCmd.status = "failed" then
        (if ("" : String) = "" ∧ lastCmd.output ≠ "" then lastCmd.output else "",
         if se.2 = "" ∧ lastCmd.error ≠ "" then lastCmd.error else se.2)
      else ("", se.2)
    | none => ("", se.2)
  else ("", se.2)

/-- One fan-out worker's final `ScriptExecution` (lines 997-1086). -/
def buildExecution (scriptID sid serverName : String) (r : HostRun) : ScriptExecution :=
  let se := execFinalCheck (execStatusError r.commandOutputs r.execErr)
  let oe := execPropagate se r.commandOutputs
  { id := "exec_" ++ scriptID ++ "_" ++ sid, scriptID := scriptID, serverID := sid,
    serverName := serverName, status := se.1, output := oe.1, error := oe.2,
    commandOutputs := r.commandOutputs }

/-- Association-list update with Go map semantics (replace or append). -/
def insertAL (m : List (String × ScriptExecution)) (k : String) (v : ScriptExecution) :
    List (String × ScriptExecution) :=
  match m with
  | [] => [(k, v)]
  | (k', v') :: rest => if k' = k then (k, v) :: rest else (k', v') :: insertAL rest k v

/-- Association-list lookup. -/
def lookupAL (m : List (String × ScriptExecution)) (k : String) : Option ScriptExecution :=
  match m with
  | [] => none
  | (k', v) :: rest => if k' = k then some v else lookupAL rest k

/-- `ExecuteBatchScript` (lines 962-1096): one worker per target host
(bounded by the 10-slot semaphore, which only limits simultaneity), each
producing one record; the `results` map is read only after `wg.Wait()`.
`run` abstracts one host's executor invocation; the fan-in map is the
fold of every worker's final write. -/
def executeBatchScript (script : BatchScript) (serverMap : String → String)
    (run : String → HostRun) : List (String × ScriptExecution) :=
  script.serverIDs.foldl
    (fun results sid =>
      insertAL results sid (buildExecution script.id sid (serverMap sid) (run sid)))
    []

theorem lookupAL_insert_self (m : List (String × ScriptExecution)) (k : String)
    (v : ScriptExecution) : lookupAL (insertAL m k v) k = some v := by
  induction m with
  | nil => simp [insertAL, lookupAL]
  | cons p rest ih =>
    rcases p with ⟨k', v'⟩
    by_cases h : k' = k
    · rw [insertAL, if_pos h, lookupAL, if_pos rfl]
    · rw [insertAL, if_neg h, lookupAL, if_neg h]
      exact ih

theorem lookupAL_insert_ne (m : List (String × ScriptExecution)) (k k' : String)
    (v : ScriptExecution) (h : k ≠ k') : lookupAL (insertAL m k v) k' = lookupAL m k' := by
  induction m with
  | nil => simp [insertAL, lookupAL, h]
  | cons p rest ih =>
    rcases p with ⟨k0, v0⟩
    by_cases h0 : k0 = k
    · rw [insertAL, if_pos h0, lookupAL, if_neg h, lookupAL, h0, if_neg h]
    · rw [insertAL, if_neg h0, lookupAL, lookupAL]
      by_cases h1 : k0 = k'
      · rw [if_pos h1, if_pos h1]
      · rw [if_neg h1, if_neg h1]
        exact ih

theorem insertAL_keys (m : List (String × ScriptExecution)) (k : String)
    (v : ScriptExecution) :
    (insertAL m k v).map Prod.fst
      = (if k ∈ m.map Prod.fst then m.map Prod.fst else m.map Prod.fst ++ [k]) := by
  induction m with
  | nil => simp [insertAL]
  | cons p rest ih =>
    rcases p with ⟨k0, v0⟩
    by_cases h0 : k0 = k
    · rw [insertAL, if_pos h0]
      simp [h0]
    · rw [insertAL, if_neg h0]
      simp only [List.map_cons, List.mem_cons]
      rw [ih]
      by_cases h1 : k ∈ rest.map Prod.fst
      · rw [if_pos h1, if_pos (Or.inr h1)]
      · rw [if_neg h1, if_neg (by
          intro hc
          rcases hc with hc | hc
          · exact h0 hc.symm
          · exact h1 hc)]
        rfl

theorem insertAL_keys_nodup (m : List (String × ScriptExecution)) (k : String)
    (v : ScriptExecution) (h : (m.map Prod.fst).Nodup) :
    ((insertAL m k v).map Prod.fst).Nodup := by
  rw [insertAL_keys]
  by_cases hk : k ∈ m.map Prod.fst
  · rw [if_pos hk]
    exact h
  · rw [if_neg hk]
    rw [List.nodup_append]
    exact ⟨h, List.nodup_singleton k, by
      intro a ha hb
      simp at hb
      rw [hb] at ha
      exact hk ha⟩

theorem executeBatchScript_fold (script : BatchScript) (serverMap : String → String)
    (run : String → HostRun) :
    ∀ (sids : List String) (acc : List (String × ScriptExecution)) (sid : String),
      lookupAL (sids.foldl
          (fun results s =>
            insertAL results s (buildExecution script.id s (serverMap s) (run s))) acc) sid
        = (if sid ∈ sids then some (buildExecution script.id sid (serverMap sid) (run sid))
          else lookupAL acc sid) := by
  intro sids
  induction sids with
  | nil =>
    intro acc sid
    rw [if_neg (by simp)]
    rfl
  | cons s rest ih =>
    intro acc sid
    show lookupAL (rest.foldl _ (insertAL acc s _)) sid = _
    rw [ih]
    by_cases hr : sid ∈ rest
    · rw [if_pos hr, if_pos (List.mem_cons_of_mem s hr)]
    · rw [if_neg hr]
      by_cases hs : sid = s
      · rw [if_pos (by rw [hs]; exact List.mem_cons_self s rest)]
        rw [hs, lookupAL_insert_self]
      · rw [if_neg (by
          intro hc
          rcases List.mem_cons.mp hc with h1 | h2
          · exact hs h1
          · exact hr h2)]
        exact lookupAL_insert_ne acc s sid _ (fun he => hs he.symm)

theorem executeBatchScript_fold_nodup (script : BatchScript) (serverMap : String → String)
    (run : String → HostRun) :
    ∀ (sids : List String) (acc : List (String × ScriptExecution)),
      (acc.map Prod.fst).Nodup →
      ((sids.foldl
          (fun results s =>
            insertAL results s (buildExecution script.id s (serverMap s) (run s))) acc).map
        Prod.fst).Nodup := by
  intro sids
  induction sids with
  | nil => intro acc h; exact h
  | cons s rest ih =>
    intro acc h
    exact ih _ (insertAL_keys_nodup acc s _ h)

theorem string_append_ne_empty_left (a b : String) (ha : a ≠ "") : a ++ b ≠ "" := by
  rw [string_ne_empty_iff_data] at ha ⊢
  rw [String.data_append]
  intro h
  exact ha (List.append_eq_nil.mp h).1

theorem execStatusError_sound (commandOutputs : List CommandOutput)
    (execErr : Option String) :
    ((execStatusError commandOutputs execErr).1 = "success"
      ∨ (execStatusError commandOutputs execErr).1 = "failed")
    ∧ ((execStatusError commandOutputs execErr).1 = "failed" →
        (execStatusError commandOutputs execErr).2 ≠ "") := by
  unfold execStatusError
  cases execErr with
  | some e =>
    refine ⟨Or.inr rfl, fun _ => ?_⟩
    exact string_append_ne_empty_left "执行错误: " e (by decide)
  | none =>
    by_cases hf : commandOutputs.any (fun c => c.status = "failed") = true
    · rw [if_pos hf]
      refine ⟨Or.inr rfl, fun _ => ?_⟩
      dsimp only
      by_cases he : (match commandOutputs.find? (fun c => c.status = "failed") with
          | some c =>
            if c.error ≠ "" then c.error
            else if c.output ≠ "" then c.output
            else "命令执行失败，但没有详细的错误信息"
          | none => "") = ""
      · rw [if_pos he]
        decide
      · rw [if_neg he]
        exact he
    · rw [if_neg hf]
      exact ⟨Or.inl rfl, fun h => absurd h (by decide)⟩

theorem execFinalCheck_sound (se : String × String) :
    (execFinalCheck se).1 = se.1
    ∧ ((execFinalCheck se).1 = "failed" → (execFinalCheck se).2 ≠ "") := by
  unfold execFinalCheck
  by_cases h : se.1 = "failed" ∧ se.2 = ""
  · rw [if_pos h]
    refine ⟨rfl, fun _ => ?_⟩
    show ("执行失败，但未能获取具体的错误信息" : String) ≠ ""
    decide
  · rw [if_neg h]
    refine ⟨rfl, fun hf he => ?_⟩
    exact h ⟨hf, he⟩

theorem execPropagate_err (se : String × String) (commandOutputs : List CommandOutput)
    (h : se.2 ≠ "") : (execPropagate se commandOutputs).2 ≠ "" := by
  unfold execPropagate
  split
  · cases hlast : commandOutputs.getLast? with
    | none => exact h
    | some lastCmd =>
      show ((if lastCmd.status = "failed" then
          ((if ("" : String) = "" ∧ lastCmd.output ≠ "" then lastCmd.output else ""),
            (if se.2 = "" ∧ lastCmd.error ≠ "" then lastCmd.error else se.2))
        else ("", se.2)) : String × String).2 ≠ ""
      by_cases hls : lastCmd.status = "failed"
      · rw [if_pos hls]
        dsimp only
        rw [if_neg (fun hc => h hc.1)]
        exact h
      · rw [if_neg hls]
        exact h
  · exact h

theorem buildExecution_sound (scriptID sid serverName : String) (r : HostRun) :
    ((buildExecution scriptID sid serverName r).status = "success"
      ∨ (buildExecution scriptID sid serverName r).status = "failed")
    ∧ ((buildExecution scriptID sid serverName r).status = "failed" →
        (buildExecution scriptID sid serverName r).error ≠ "")
    ∧ (buildExecution scriptID sid serverName r).commandOutputs = r.commandOutputs := by
  have hse := execStatusError_sound r.commandOutputs r.execErr
  have hfc := execFinalCheck_sound (execStatusError r.commandOutputs r.execErr)
  refine ⟨?_, ?_, rfl⟩
  · show ((execFinalCheck (execStatusError r.commandOutputs r.execErr)).1 = "success"
      ∨ (execFinalCheck (execStatusError r.commandOutputs r.execErr)).1 = "failed")
    rw [hfc.1]
    exact hse.1
  · intro hf
    have hf' : (execFinalCheck (execStatusError r.commandOutputs r.execErr)).1 = "failed" := hf
    show (execPropagate (execFinalCheck (execStatusError r.commandOutputs r.execErr))
        r.commandOutputs).2 ≠ ""
    exact execPropagate_err _ _ (hfc.2 hf')

/-- Claim C6: `ExecuteBatchScript` returns, after every worker has
finished (the fan-in fold), a host-keyed map with exactly one record per
target host — each host's record depends only on that host's own run;
hosts outside the target list are absent and the keys are
duplicate-free; a per-host or per-command failure is pure data: the
record's status is `success` or `failed` and a failed record always
carries non-empty error text, while the call itself returns the map
(no error). -/
theorem executeBatchScript_fanin (script : BatchScript) (serverMap : String → String)
    (run : String → HostRun) :
    (∀ sid ∈ script.serverIDs,
      lookupAL (executeBatchScript script serverMap run) sid
        = some (buildExecution script.id sid (serverMap sid) (run sid)))
    ∧ (∀ sid, sid ∉ script.serverIDs →
        lookupAL (executeBatchScript script serverMap run) sid = none)
    ∧ ((executeBatchScript script serverMap run).map Prod.fst).Nodup
    ∧ (∀ sid e, lookupAL (executeBatchScript script serverMap run) sid = some e →
        (e.status = "success" ∨ e.status = "failed")
        ∧ (e.status = "failed" → e.error ≠ "")
        ∧ e.commandOutputs = (run sid).commandOutputs) := by
  have hfold := executeBatchScript_fold script serverMap run script.serverIDs []
  refine ⟨?_, ?_, ?_, ?_⟩
  · intro sid hmem
    rw [executeBatchScript, hfold sid, if_pos hmem]
  · intro sid hmem
    rw [executeBatchScript, hfold sid, if_neg hmem]
    rfl
  · exact executeBatchScript_fold_nodup script serverMap run script.serverIDs [] (by simp)
  · intro sid e he
    rw [executeBatchScript, hfold sid] at he
    by_cases hmem : sid ∈ script.serverIDs
    · rw [if_pos hmem] at he
      have hee : e = buildExecution script.id sid (serverMap sid) (run sid) :=
        Option.some.inj he.symm
      rw [hee]
      exact buildExecution_sound script.id sid (serverMap sid) (run sid)
    · rw [if_neg hmem] at he
      cases he

/-- Witness for C6 on a concrete two-host script with one failing host. -/
theorem executeBatchScript_fanin_witness :
    (∀ sid ∈ ["h1", "h2"],
      lookupAL (executeBatchScript
          { id := "s1", name := "n", description := "", content := "ls",
            serverIDs := ["h1", "h2"], executionType := "command" }
          (fun sid => "name-" ++ sid)
          (fun sid =>
            if sid = "h2" then
              { commandOutputs :=
                  [{ command := "ls", output := "", error := "boom", status := "failed" }],
                execErr := none }
            else
              { commandOutputs :=
                  [{ command := "ls", output := "ok", error := "", status := "success" }],
                execErr := none })) sid
        = some (buildExecution "s1" sid ("name-" ++ sid)
            (if sid = "h2" then
              { commandOutputs :=
                  [{ command := "ls", output := "", error := "boom", status := "failed" }],
                execErr := none }
            else
              { commandOutputs :=
                  [{ command := "ls", output := "ok", error := "", status := "success" }],
                execErr := none }))) :=
  (executeBatchScript_fanin
    { id := "s1", name := "n", description := "", content := "ls",
      serverIDs := ["h1", "h2"], executionType := "command" }
    (fun sid => "name-" ++ sid)
    (fun sid =>
      if sid = "h2" then
        { commandOutputs :=
            [{ command := "ls", output := "", error := "boom", status := "failed" }],
          execErr := none }
      else
        { commandOutputs :=
            [{ command := "ls", output := "ok", error := "", status := "success" }],
          execErr := none })).1

end GoTerm
